import Mathlib

/-!
# gorequest: retry engine, request session and client factory

A shallow embedding of `request.go`.

Modelling conventions.

* A Go pointer `*http.Response` is an `Option Response`; `nil` is `none`.
* A Go `string` and a Go `[]byte` are both lists of bytes, a Go slice of errors
  is a list of errors; the nil slice and the empty slice are both `[]`.
* `time.Duration` and `int64` are integers, and the one arithmetic operation of
  the source on them that can leave the 64-bit range (the sum in `interval`)
  is wrapped explicitly by `wrap64`.  An `int` is taken to be 64 bits wide.
  The loop counter `retries` runs from `0` to at most `maxRetries + 1`; it is
  kept as an unbounded integer, which is what the `int` of the source holds in
  every run with `maxRetries` below the largest `int`.  At the largest `int`
  the counter of the source wraps around and its loop does not end by its
  condition; the statements that count the attempts of an exhausted run are
  made for `maxRetries` below the largest `int`.
* `float64` is a type parameter `F` with the three operations the source uses
  (`float64(x)`, `*`, `int64(f)`) gathered in `Float64Ops`; `ieee` gives them
  for IEEE 754 binary64, rounding to nearest, ties to even.
* A closure `func() bool` that updates captured variables is a function
  `τ → Bool × τ` on the captured state `τ`.
* `time.Sleep` appends its argument to a log.  A panic (`Int63n` on a range
  that is not positive) sets a flag and stops the run.
* The random source, seeded from the clock, is a natural number `raw`, the
  draw it makes.
-/

namespace GoRequest

/-- An error value. -/
abbrev Err := String

/-- A byte sequence: a Go `[]byte`, and also a Go `string`. -/
abbrev Bytes := List UInt8

/-- A pointer identity of an object that is shared, not copied
(`*http.Client`, `*http.Transport`). -/
abbrev Handle := Nat

/-- The fields of `http.Response` the source reads (`StatusCode`), and the
remaining ones kept together. -/
structure Response where
  StatusCode : Int
  rest : String
deriving DecidableEq, Repr

/-- The collaborator's native response type, `type Response *http.Response`. -/
abbrev GoResponse := Option Response

/-- The type of a retry predicate,
`func(*http.Response, []byte, []error) bool`. -/
abbrev ShouldRetry := Option Response → Bytes → List Err → Bool

/-- The floating-point operations used by `retryActor.interval`. -/
structure Float64Ops (F : Type) where
  /-- The conversion `float64(x)` of an `int64`. -/
  ofInt64 : Int → F
  /-- The product of two `float64`. -/
  mul : F → F → F
  /-- The conversion `int64(f)`. -/
  toInt64 : F → Int

/-- The largest `int64`. -/
def maxInt64 : Int := 2 ^ 63 - 1

/-- The smallest `int64`. -/
def minInt64 : Int := -(2 ^ 63)

/-- Two's-complement reduction of an integer to the `int64` range. -/
def wrap64 (x : Int) : Int := (x + 2 ^ 63) % 2 ^ 64 - 2 ^ 63

/-- One millisecond, `time.Millisecond`, in nanoseconds. -/
def Millisecond : Int := 1000000

/-- The contract of `(*rand.Rand).Int63n`: it panics (`none`) when `n ≤ 0`, and
otherwise returns a number of `[0, n)`.  `raw` is what the generator, seeded
from the clock, draws; as `raw` ranges over the naturals the result ranges over
all of `[0, n)`. -/
def Int63n (raw : Nat) (n : Int) : Option Int :=
  if n ≤ 0 then none else some ((raw : Int) % n)

/-- The source's `defaultShouldRetry`. -/
def defaultShouldRetry (resp : Option Response) (_body : Bytes) (_errors : List Err) : Bool :=
  match resp with
  | some r => decide (r.StatusCode > 499)
  | none => false

/-- The source's `convert`: `nil` goes to `nil`, a response to a copy of itself. -/
def convert (goResp : GoResponse) : Option Response :=
  match goResp with
  | none => none
  | some r => some r

/-- The source's `retryActor`; `doFn` is its field `do`. -/
structure retryActor (F : Type) (τ : Type) where
  maxRetries : Int
  backoff : F
  minRetryPeriod : Int
  retryPeriodRange : Int
  retries : Int
  doFn : τ → Bool × τ
  retryPeriod : Int

/-- The source's `retryActor.interval`: the delay before the next attempt and
the actor with `retryPeriod` updated; `none` when `Int63n` panics. -/
def retryActor.interval {F τ : Type} (ops : Float64Ops F) (raw : Nat) (r : retryActor F τ) :
    Option (Int × retryActor F τ) :=
  if r.retries = 0 then
    match Int63n raw r.retryPeriodRange with
    | none => none
    | some j =>
      let p := wrap64 (j + r.minRetryPeriod)
      some (p, { r with retryPeriod := p })
  else
    let p := ops.toInt64 (ops.mul (ops.ofInt64 r.retryPeriod) r.backoff)
    some (p, { r with retryPeriod := p })

/-- A point of a run of `retryActor.act`: the actor, the state captured by the
attempt function, the number of times the attempt function has been invoked,
the delays slept so far in order, and whether the run has panicked. -/
structure ActState (F : Type) (τ : Type) where
  actor : retryActor F τ
  world : τ
  calls : Nat
  slept : List Int
  panicked : Bool

/-- The loop of `retryActor.act` from a given point, the assignment
`r.retries = 0` already done.  Each unit of `fuel` pays for one test of the loop
condition; `none` means the fuel ran out.  The counter is incremented as an
unbounded integer: that is the `r.retries++` of the source as long as the
counter stays below the largest `int`, as it does in every run with
`maxRetries` below the largest `int`; the wrap-around of the counter at the
largest `int` is not followed. -/
def retryActor.actLoop {F τ : Type} (ops : Float64Ops F) (raw : Nat) :
    Nat → ActState F τ → Option (ActState F τ)
  | 0, _ => none
  | fuel + 1, st =>
    if st.actor.retries ≤ st.actor.maxRetries then
      let out := st.actor.doFn st.world
      if out.1 = false then
        some { st with world := out.2, calls := st.calls + 1 }
      else
        match st.actor.interval ops raw with
        | none => some { st with world := out.2, calls := st.calls + 1, panicked := true }
        | some (d, a) =>
          retryActor.actLoop ops raw fuel
            { st with
              actor := { a with retries := a.retries + 1 },
              world := out.2,
              calls := st.calls + 1,
              slept := st.slept ++ [d] }
    else
      some st

/-- The number of tests of the loop condition that `act` can need. -/
def retryActor.actFuel {F τ : Type} (r : retryActor F τ) : Nat :=
  (r.maxRetries + 1).toNat + 1

/-- The source's `retryActor.act`, run on the captured state `w`. -/
def retryActor.act {F τ : Type} (ops : Float64Ops F) (raw : Nat) (r : retryActor F τ) (w : τ) :
    Option (ActState F τ) :=
  retryActor.actLoop ops raw r.actFuel
    { actor := { r with retries := 0 }, world := w, calls := 0, slept := [], panicked := false }

/-- The captured state after `i` invocations of the attempt function `f`. -/
def worldAfter {τ : Type} (f : τ → Bool × τ) (w : τ) : Nat → τ
  | 0 => w
  | i + 1 => (f (worldAfter f w i)).2

/-- What invocation number `i + 1` of the attempt function `f` returns. -/
def verdict {τ : Type} (f : τ → Bool × τ) (w : τ) (i : Nat) : Bool :=
  (f (worldAfter f w i)).1

/-- The source's `clientImpl`. -/
structure clientImpl (F : Type) where
  client : Handle
  transport : Handle
  maxRetries : Int
  backoff : F
  minRetryPeriod : Int
  retryPeriodRange : Int
  shouldRetry : ShouldRetry

/-- The source's `New`; `httpClient` and `transport` are the two objects it
allocates (`newHTTPClient()` and `&http.Transport{}`). -/
def New {F : Type} (ops : Float64Ops F) (httpClient transport : Handle) : clientImpl F :=
  { client := httpClient,
    transport := transport,
    maxRetries := 0,
    backoff := ops.ofInt64 0,
    minRetryPeriod := 100 * Millisecond,
    retryPeriodRange := 200 * Millisecond,
    shouldRetry := defaultShouldRetry }

/-- The source's `clientImpl.Retry`: the client after the call.  The variadic
argument `shouldRetry` is a list. -/
def clientImpl.Retry {F : Type} (c : clientImpl F) (maxRetries : Int) (backoff : F)
    (shouldRetry : List ShouldRetry) : clientImpl F :=
  let c1 := { c with maxRetries := maxRetries, backoff := backoff }
  match shouldRetry with
  | p :: _ => { c1 with shouldRetry := p }
  | [] => c1

/-- The request-building collaborator (`SuperAgent`), whose code is not part
of the source: a state `σ`, its construction, and its two execute operations,
each returning the native response, the body, the error list and the next
state. -/
structure SuperAgentOps (σ : Type) where
  newSuperAgent : Handle → Handle → σ
  End : σ → (GoResponse × Bytes × List Err) × σ
  EndBytes : σ → (GoResponse × Bytes × List Err) × σ

/-- The source's `requestImpl`. -/
structure requestImpl (F : Type) (σ : Type) where
  superAgent : σ
  maxRetries : Int
  backoff : F
  client : Handle
  transport : Handle
  minRetryPeriod : Int
  retryPeriodRange : Int
  shouldRetry : ShouldRetry

/-- The source's `newRequest`. -/
def newRequest {F σ : Type} (C : SuperAgentOps σ) (client transport : Handle) (maxRetries : Int)
    (backoff : F) (minRetryPeriod retryPeriodRange : Int) (shouldRetry : ShouldRetry) :
    requestImpl F σ :=
  { client := client,
    transport := transport,
    maxRetries := maxRetries,
    backoff := backoff,
    superAgent := C.newSuperAgent client transport,
    minRetryPeriod := minRetryPeriod,
    retryPeriodRange := retryPeriodRange,
    shouldRetry := shouldRetry }

/-- The source's `clientImpl.Request`. -/
def clientImpl.Request {F σ : Type} (C : SuperAgentOps σ) (c : clientImpl F) : requestImpl F σ :=
  newRequest C c.client c.transport c.maxRetries c.backoff c.minRetryPeriod c.retryPeriodRange
    c.shouldRetry

/-- The `retryActor` that `requestImpl.retryEnd` builds; the two fields its
literal leaves out hold their zero values. -/
def requestImpl.newRetryActor {F σ τ : Type} (r : requestImpl F σ) (doFn : τ → Bool × τ) :
    retryActor F τ :=
  { doFn := doFn,
    backoff := r.backoff,
    maxRetries := r.maxRetries,
    minRetryPeriod := r.minRetryPeriod,
    retryPeriodRange := r.retryPeriodRange,
    retries := 0,
    retryPeriod := 0 }

/-- The source's `requestImpl.retryEnd`, run on the state `w` captured by `doFn`. -/
def requestImpl.retryEnd {F σ τ : Type} (ops : Float64Ops F) (raw : Nat) (r : requestImpl F σ)
    (doFn : τ → Bool × τ) (w : τ) : Option (ActState F τ) :=
  (r.newRetryActor doFn).act ops raw w

/-- The collaborator's state after `i` exchanges made with `exec`. -/
def agentAfter {σ : Type} (exec : σ → (GoResponse × Bytes × List Err) × σ) (sa : σ) : Nat → σ
  | 0 => sa
  | i + 1 => (exec (agentAfter exec sa i)).2

/-- The outcome of exchange number `i + 1` made with `exec`: the native
response, the body and the error list. -/
def exchange {σ : Type} (exec : σ → (GoResponse × Bytes × List Err) × σ) (sa : σ) (i : Nat) :
    GoResponse × Bytes × List Err :=
  (exec (agentAfter exec sa i)).1

/-- The variables the closures of `End`, `EndBytes` and `EndStruct` read and
write: the collaborator's state and the three named results. -/
structure Captured (σ : Type) where
  superAgent : σ
  resp : Option Response
  body : Bytes
  errors : List Err

/-- The closure passed to `retryEnd` by the terminal operations; `exec` is the
collaborator's execute operation it calls (`End` or `EndBytes`).  In `End` the
body is a `string` and the predicate gets `[]byte(body)`: the same bytes. -/
def requestImpl.attempt {F σ : Type} (exec : σ → (GoResponse × Bytes × List Err) × σ)
    (r : requestImpl F σ) (s : Captured σ) : Bool × Captured σ :=
  let out := exec s.superAgent
  let resp := convert out.1.1
  (r.shouldRetry resp out.1.2.1 out.1.2.2,
    { superAgent := out.2, resp := resp, body := out.1.2.1, errors := out.1.2.2 })

/-- The captured variables when a terminal operation starts: the named results
hold their zero values. -/
def requestImpl.start {F σ : Type} (r : requestImpl F σ) : Captured σ :=
  { superAgent := r.superAgent, resp := none, body := [], errors := [] }

/-- What a terminal operation leaves: the three results, the collaborator's
state, and the record of the run (attempts made, delays slept, panic). -/
structure EndResult (σ : Type) where
  resp : Option Response
  body : Bytes
  errors : List Err
  superAgent : σ
  calls : Nat
  slept : List Int
  panicked : Bool

/-- The results read off the final point of a run. -/
def EndResult.ofRun {F σ : Type} (st : ActState F (Captured σ)) : EndResult σ :=
  { resp := st.world.resp,
    body := st.world.body,
    errors := st.world.errors,
    superAgent := st.world.superAgent,
    calls := st.calls,
    slept := st.slept,
    panicked := st.panicked }

/-- The source's `requestImpl.End`. -/
def requestImpl.End {F σ : Type} (ops : Float64Ops F) (raw : Nat) (C : SuperAgentOps σ)
    (r : requestImpl F σ) : Option (EndResult σ) :=
  (r.retryEnd ops raw (r.attempt C.End) r.start).map EndResult.ofRun

/-- The source's `requestImpl.EndBytes`. -/
def requestImpl.EndBytes {F σ : Type} (ops : Float64Ops F) (raw : Nat) (C : SuperAgentOps σ)
    (r : requestImpl F σ) : Option (EndResult σ) :=
  (r.retryEnd ops raw (r.attempt C.EndBytes) r.start).map EndResult.ofRun

/-- What `EndStruct` leaves: the results and run record, and the destination. -/
structure EndStructResult (σ : Type) (D : Type) where
  toEndResult : EndResult σ
  content : D

/-- The source's `requestImpl.EndStruct`.  `unmarshal body content` is
`json.Unmarshal`: the destination after decoding and the decode error, if any.
When the retry loop panics the decoding is never reached. -/
def requestImpl.EndStruct {F σ D : Type} (ops : Float64Ops F) (raw : Nat) (C : SuperAgentOps σ)
    (unmarshal : Bytes → D → D × Option Err) (r : requestImpl F σ) (content : D) :
    Option (EndStructResult σ D) :=
  match r.retryEnd ops raw (r.attempt C.EndBytes) r.start with
  | none => none
  | some st =>
    let res := EndResult.ofRun st
    if st.panicked then
      some { toEndResult := res, content := content }
    else
      let dec := unmarshal res.body content
      match dec.2 with
      | some err => some { toEndResult := { res with errors := res.errors ++ [err] }, content := dec.1 }
      | none => some { toEndResult := res, content := dec.1 }

/-- The objects of a program using one client: the client object and the
sessions created so far, oldest first. -/
structure Store (F : Type) (σ : Type) where
  client : clientImpl F
  sessions : List (requestImpl F σ)

/-- The statement `s := c.Request()`: a new session object is added, the client
object is not written. -/
def Store.request {F σ : Type} (C : SuperAgentOps σ) (h : Store F σ) : Store F σ :=
  { h with sessions := h.sessions ++ [h.client.Request C] }

/-- The statement `c.Retry(maxRetries, backoff, shouldRetry...)`: the fields of
the client object are written, no session object is. -/
def Store.retry {F σ : Type} (h : Store F σ) (maxRetries : Int) (backoff : F)
    (shouldRetry : List ShouldRetry) : Store F σ :=
  { h with client := h.client.Retry maxRetries backoff shouldRetry }

/-- A `float64` of IEEE 754 binary64: the finite value `(-1)^neg * m * 2^e`
(the pair `m`, `e` is not normalised, and `m = 0` gives the two zeros), an
infinity, or a NaN. -/
inductive F64 where
  | finite (neg : Bool) (m : Nat) (e : Int)
  | inf (neg : Bool)
  | nan
deriving DecidableEq, Repr

/-- The number of binary digits of `m`, computed with `fuel` halvings. -/
def bitLengthAux : Nat → Nat → Nat
  | 0, _ => 0
  | fuel + 1, m => if m = 0 then 0 else bitLengthAux fuel (m / 2) + 1

/-- The number of binary digits of `m`; zero has none. -/
def bitLength (m : Nat) : Nat := bitLengthAux m m

/-- Rounding of the exact magnitude `m * 2^e` to binary64, to nearest and ties
to even: the low `k` digits are dropped, `k` being what brings the significand
to 53 digits or the exponent up to that of the subnormals, `-1074`; a result of
`2^1024` or more is an infinity, and zero stays zero. -/
def F64.round (neg : Bool) (m : Nat) (e : Int) : F64 :=
  let shift : Int := max ((bitLength m : Int) - 53) (-1074 - e)
  let k : Nat := shift.toNat
  let q : Nat := m / 2 ^ k
  let rest : Nat := m % 2 ^ k
  let up : Bool := decide (2 * rest > 2 ^ k) || (decide (2 * rest = 2 ^ k) && decide (q % 2 = 1))
  let m1 : Nat := if up then q + 1 else q
  let e1 : Int := e + (k : Int)
  if m1 ≠ 0 ∧ (bitLength m1 : Int) + e1 > 1024 then F64.inf neg else F64.finite neg m1 e1

/-- The product of two `float64`: the exact product, rounded. -/
def F64.mul : F64 → F64 → F64
  | .nan, _ => .nan
  | _, .nan => .nan
  | .inf s, .inf t => .inf (xor s t)
  | .inf s, .finite t m _ => if m = 0 then .nan else .inf (xor s t)
  | .finite s m _, .inf t => if m = 0 then .nan else .inf (xor s t)
  | .finite s m1 e1, .finite t m2 e2 => F64.round (xor s t) (m1 * m2) (e1 + e2)

/-- The conversion `float64(x)` of an integer: `x`, rounded. -/
def F64.ofInt64 (x : Int) : F64 := F64.round (decide (x < 0)) x.natAbs 0

/-- The `float64` one, `float64(1)`. -/
def F64.one : F64 := F64.ofInt64 1

/-- The conversion `int64(f)`: the fraction is discarded.  Where the value is
not an `int64` (too large, an infinity, a NaN) the language leaves the result
to the implementation: it is `undef f`, reduced to an `int64`. -/
def F64.toInt64 (undef : F64 → Int) : F64 → Int
  | .finite neg m e =>
    let mag : Int := if 0 ≤ e then ((m * 2 ^ e.toNat : Nat) : Int)
      else ((m / 2 ^ (-e).toNat : Nat) : Int)
    let v : Int := if neg then -mag else mag
    if minInt64 ≤ v ∧ v ≤ maxInt64 then v else wrap64 (undef (.finite neg m e))
  | x => wrap64 (undef x)

/-- The `float64` operations of IEEE 754 binary64. -/
def ieee (undef : F64 → Int) : Float64Ops F64 :=
  { ofInt64 := F64.ofInt64, mul := F64.mul, toInt64 := F64.toInt64 undef }

/-- The result of an `int64(f)` that the language leaves open, as the amd64
instruction gives it: the smallest `int64`. -/
def undefAmd64 (_ : F64) : Int := minInt64

/-- The `float64` operations on amd64. -/
def amd64 : Float64Ops F64 := ieee undefAmd64

/-- The delay that `interval` computes from the previous delay `prev` after the
first retry: `int64(float64(prev) * backoff)`. -/
def nextDelay {F : Type} (ops : Float64Ops F) (backoff : F) (prev : Int) : Int :=
  ops.toInt64 (ops.mul (ops.ofInt64 prev) backoff)

/-- A response with status 500. -/
def resp500 : Response := { StatusCode := 500, rest := "" }

/-- A collaborator that answers every exchange with status 500; its state
counts the exchanges made, as the server of `TestHTTPRetry` does. -/
def always500 : SuperAgentOps Nat :=
  { newSuperAgent := fun _ _ => 0,
    End := fun n => ((some resp500, [], []), n + 1),
    EndBytes := fun n => ((some resp500, [], []), n + 1) }

/-- The predicate injected by `TestHTTPInjectedRetry`: never retry. -/
def neverRetry : ShouldRetry := fun _ _ _ => false

/-- An attempt function that always asks for a retry; its state counts the
invocations. -/
def countingRetry (n : Nat) : Bool × Nat := (true, n + 1)

/-- An attempt function that asks for a retry on its first two invocations and
stops on the third; its state counts the invocations. -/
def stopAtThird (n : Nat) : Bool × Nat := (decide (n < 2), n + 1)

/-- A retry actor with the delays of `New`, a backoff of one, and the given
number of retries and attempt function. -/
def sampleActor (maxRetries : Int) (doFn : Nat → Bool × Nat) : retryActor F64 Nat :=
  { maxRetries := maxRetries,
    backoff := F64.one,
    minRetryPeriod := 100 * Millisecond,
    retryPeriodRange := 200 * Millisecond,
    retries := 0,
    doFn := doFn,
    retryPeriod := 0 }

/-- A retry actor about to compute its first delay, with the largest minimum
delay an `int64` holds and a jitter range of two nanoseconds. -/
def overflowActor : retryActor F64 Nat :=
  { maxRetries := 0,
    backoff := F64.one,
    minRetryPeriod := maxInt64,
    retryPeriodRange := 2,
    retries := 0,
    doFn := countingRetry,
    retryPeriod := 0 }

/-- A collaborator that answers its first two exchanges with status 503 and
every later one with status 200; the body is the number of exchanges made
before, written as one decimal digit in ASCII (for fewer than ten exchanges),
and the failures carry an error; its state counts the exchanges made. -/
def flaky : SuperAgentOps Nat :=
  { newSuperAgent := fun _ _ => 0,
    End := fun n =>
      if n < 2 then
        ((some { StatusCode := 503, rest := "" }, [UInt8.ofNat (48 + n)], ["busy"]), n + 1)
      else ((some { StatusCode := 200, rest := "" }, [UInt8.ofNat (48 + n)], []), n + 1),
    EndBytes := fun n =>
      if n < 2 then
        ((some { StatusCode := 503, rest := "" }, [UInt8.ofNat (48 + n)], ["busy"]), n + 1)
      else ((some { StatusCode := 200, rest := "" }, [UInt8.ofNat (48 + n)], []), n + 1) }

/-- A decoder into a destination holding one number, used to exercise
`EndStruct`.  On the empty body and on a body of one ASCII digit it does what
`json.Unmarshal` does into an `int`: an error that leaves the destination as it
was, and the value of the digit.  Every other body is refused, which
`json.Unmarshal` does not always do: it is no model of JSON. -/
def decodeDigit (body : Bytes) (content : Nat) : Nat × Option Err :=
  match body with
  | [] => (content, some "unexpected end of JSON input")
  | [b] =>
    if 48 ≤ b.toNat ∧ b.toNat ≤ 57 then (b.toNat - 48, none)
    else (content, some "invalid character")
  | _ => (content, some "invalid character")

/-- A retry actor with the delays of `New` except for a jitter range of zero,
a backoff of one, and the given number of retries and attempt function. -/
def zeroRangeActor (maxRetries : Int) (doFn : Nat → Bool × Nat) : retryActor F64 Nat :=
  { maxRetries := maxRetries,
    backoff := F64.one,
    minRetryPeriod := 100 * Millisecond,
    retryPeriodRange := 0,
    retries := 0,
    doFn := doFn,
    retryPeriod := 0 }

/-- A retry actor with a backoff of one whose first delay is `2^53 + 1`
nanoseconds whatever is drawn (the jitter range holds the single value zero),
with one retry and an attempt function that always asks for a retry. -/
def roundingActor : retryActor F64 Nat :=
  { maxRetries := 1,
    backoff := F64.one,
    minRetryPeriod := 9007199254740993,
    retryPeriodRange := 1,
    retries := 0,
    doFn := countingRetry,
    retryPeriod := 0 }

/-! ## The retry loop: auxiliary facts -/

theorem worldAfter_shift {τ : Type} (f : τ → Bool × τ) (w : τ) (n : Nat) :
    worldAfter f (f w).2 n = worldAfter f w (n + 1) := by
  induction n with
  | zero => rfl
  | succ n ih => simp only [worldAfter, ih]

theorem verdict_shift {τ : Type} (f : τ → Bool × τ) (w : τ) (n : Nat) :
    verdict f (f w).2 n = verdict f w (n + 1) := by
  simp only [verdict, worldAfter_shift]

theorem interval_eq {F τ : Type} (ops : Float64Ops F) (raw : Nat) (r : retryActor F τ)
    (d : Int) (a : retryActor F τ) (h : r.interval ops raw = some (d, a)) :
    a = { r with retryPeriod := d } := by
  unfold retryActor.interval at h
  split at h
  · split at h
    · exact absurd h (by simp)
    · simp only [Option.some.injEq, Prod.mk.injEq] at h
      rw [← h.2, ← h.1]
  · simp only [Option.some.injEq, Prod.mk.injEq] at h
    rw [← h.2, ← h.1]

theorem interval_isSome {F τ : Type} (ops : Float64Ops F) (raw : Nat) (r : retryActor F τ)
    (h : r.retries ≠ 0 ∨ 0 < r.retryPeriodRange) :
    ∃ d, r.interval ops raw = some (d, { r with retryPeriod := d }) := by
  unfold retryActor.interval
  by_cases h0 : r.retries = 0
  · have hr : ¬ r.retryPeriodRange ≤ 0 := by
      rcases h with h | h
      · exact absurd h0 h
      · omega
    simp [h0, Int63n, hr]
  · simp [h0]

theorem interval_panics {F τ : Type} (ops : Float64Ops F) (raw : Nat) (r : retryActor F τ)
    (h0 : r.retries = 0) (hr : r.retryPeriodRange ≤ 0) : r.interval ops raw = none := by
  simp [retryActor.interval, h0, Int63n, hr]

theorem actLoop_exit {F τ : Type} (ops : Float64Ops F) (raw : Nat) (fuel : Nat)
    (st : ActState F τ) (h : ¬ st.actor.retries ≤ st.actor.maxRetries) :
    retryActor.actLoop ops raw (fuel + 1) st = some st := by
  simp [retryActor.actLoop, h]

theorem actLoop_stop {F τ : Type} (ops : Float64Ops F) (raw : Nat) (fuel : Nat)
    (st : ActState F τ) (h : st.actor.retries ≤ st.actor.maxRetries)
    (hv : (st.actor.doFn st.world).1 = false) :
    retryActor.actLoop ops raw (fuel + 1) st
      = some { st with world := (st.actor.doFn st.world).2, calls := st.calls + 1 } := by
  simp [retryActor.actLoop, h, hv]

theorem actLoop_panic {F τ : Type} (ops : Float64Ops F) (raw : Nat) (fuel : Nat)
    (st : ActState F τ) (h : st.actor.retries ≤ st.actor.maxRetries)
    (hv : (st.actor.doFn st.world).1 = true) (hi : st.actor.interval ops raw = none) :
    retryActor.actLoop ops raw (fuel + 1) st
      = some { st with world := (st.actor.doFn st.world).2, calls := st.calls + 1,
                       panicked := true } := by
  simp [retryActor.actLoop, h, hv, hi]

theorem actLoop_continue {F τ : Type} (ops : Float64Ops F) (raw : Nat) (fuel : Nat)
    (st : ActState F τ) (h : st.actor.retries ≤ st.actor.maxRetries)
    (hv : (st.actor.doFn st.world).1 = true) (d : Int)
    (hi : st.actor.interval ops raw = some (d, { st.actor with retryPeriod := d })) :
    retryActor.actLoop ops raw (fuel + 1) st
      = retryActor.actLoop ops raw fuel
          { st with
            actor := { st.actor with retryPeriod := d, retries := st.actor.retries + 1 },
            world := (st.actor.doFn st.world).2,
            calls := st.calls + 1,
            slept := st.slept ++ [d] } := by
  simp [retryActor.actLoop, h, hv, hi]

/-- The loop returns: the fuel bound of `act` is enough from every point. -/
theorem actLoop_total {F τ : Type} (ops : Float64Ops F) (raw : Nat) :
    ∀ (fuel : Nat) (st : ActState F τ),
      (st.actor.maxRetries + 1 - st.actor.retries).toNat < fuel →
      ∃ res, retryActor.actLoop ops raw fuel st = some res := by
  intro fuel
  induction fuel with
  | zero => intro st h; omega
  | succ fuel ih =>
    intro st h
    by_cases hc : st.actor.retries ≤ st.actor.maxRetries
    · cases hv : (st.actor.doFn st.world).1 with
      | false => exact ⟨_, actLoop_stop ops raw fuel st hc hv⟩
      | true =>
        cases hi : st.actor.interval ops raw with
        | none => exact ⟨_, actLoop_panic ops raw fuel st hc hv hi⟩
        | some da =>
          obtain ⟨d, a⟩ := da
          have ha := interval_eq ops raw st.actor d a hi
          subst ha
          rw [actLoop_continue ops raw fuel st hc hv d hi]
          apply ih
          simp only
          omega
    · exact ⟨_, actLoop_exit ops raw fuel st hc⟩

/-- Whatever the attempt function answers, the state the loop leaves is the
one reached by the invocations it made, and it makes at least one when the loop
condition holds at the start. -/
theorem actLoop_trace {F τ : Type} (ops : Float64Ops F) (raw : Nat) :
    ∀ (fuel : Nat) (st res : ActState F τ),
      retryActor.actLoop ops raw fuel st = some res →
      st.calls ≤ res.calls ∧
      res.world = worldAfter st.actor.doFn st.world (res.calls - st.calls) ∧
      (st.actor.retries ≤ st.actor.maxRetries → st.calls < res.calls) := by
  intro fuel
  induction fuel with
  | zero => intro st res h; simp [retryActor.actLoop] at h
  | succ fuel ih =>
    intro st res h
    by_cases hc : st.actor.retries ≤ st.actor.maxRetries
    · cases hv : (st.actor.doFn st.world).1 with
      | false =>
        rw [actLoop_stop ops raw fuel st hc hv] at h
        simp only [Option.some.injEq] at h
        subst h
        simp [worldAfter]
      | true =>
        cases hi : st.actor.interval ops raw with
        | none =>
          rw [actLoop_panic ops raw fuel st hc hv hi] at h
          simp only [Option.some.injEq] at h
          subst h
          simp [worldAfter]
        | some da =>
          obtain ⟨d, a⟩ := da
          have ha := interval_eq ops raw st.actor d a hi
          subst ha
          rw [actLoop_continue ops raw fuel st hc hv d hi] at h
          obtain ⟨h1, h2, _⟩ := ih _ res h
          simp only at h1 h2
          refine ⟨by omega, ?_, fun _ => by omega⟩
          rw [h2, worldAfter_shift]
          congr 1
          omega
    · rw [actLoop_exit ops raw fuel st hc] at h
      simp only [Option.some.injEq] at h
      subst h
      simp [worldAfter, hc]

/-- The loop panics only in its first iteration, and only when the jitter
range is not positive. -/
theorem actLoop_no_panic {F τ : Type} (ops : Float64Ops F) (raw : Nat) :
    ∀ (fuel : Nat) (st res : ActState F τ),
      retryActor.actLoop ops raw fuel st = some res →
      0 ≤ st.actor.retries →
      (st.actor.retries ≠ 0 ∨ 0 < st.actor.retryPeriodRange) →
      res.panicked = st.panicked := by
  intro fuel
  induction fuel with
  | zero => intro st res h; simp [retryActor.actLoop] at h
  | succ fuel ih =>
    intro st res h h0 hr
    by_cases hc : st.actor.retries ≤ st.actor.maxRetries
    · cases hv : (st.actor.doFn st.world).1 with
      | false =>
        rw [actLoop_stop ops raw fuel st hc hv] at h
        simp only [Option.some.injEq] at h
        subst h
        rfl
      | true =>
        obtain ⟨d, hi⟩ := interval_isSome ops raw st.actor hr
        rw [actLoop_continue ops raw fuel st hc hv d hi] at h
        have := ih _ res h (by simp only; omega) (Or.inl (by simp only; omega))
        simpa using this
    · rw [actLoop_exit ops raw fuel st hc] at h
      simp only [Option.some.injEq] at h
      subst h
      rfl

/-- The loop stops at the first attempt that answers `false`: when that is
attempt number `k + 1` counted from the current point and the counter allows
it, exactly `k + 1` attempts are made and exactly `k` delays are slept. -/
theorem actLoop_first_stop {F τ : Type} (ops : Float64Ops F) (raw : Nat) :
    ∀ (k fuel : Nat) (st : ActState F τ),
      k < fuel →
      0 ≤ st.actor.retries →
      st.actor.retries + k ≤ st.actor.maxRetries →
      (k = 0 ∨ st.actor.retries ≠ 0 ∨ 0 < st.actor.retryPeriodRange) →
      (∀ i, i < k → verdict st.actor.doFn st.world i = true) →
      verdict st.actor.doFn st.world k = false →
      ∃ res, retryActor.actLoop ops raw fuel st = some res ∧
        res.calls = st.calls + k + 1 ∧
        res.slept.length = st.slept.length + k ∧
        res.world = worldAfter st.actor.doFn st.world (k + 1) ∧
        res.panicked = st.panicked := by
  intro k
  induction k with
  | zero =>
    intro fuel st hf h0 hm _ _ hk
    obtain ⟨fuel, rfl⟩ : ∃ n, fuel = n + 1 := ⟨fuel - 1, by omega⟩
    have hc : st.actor.retries ≤ st.actor.maxRetries := by omega
    refine ⟨_, actLoop_stop ops raw fuel st hc hk, ?_⟩
    simp [worldAfter]
  | succ k ih =>
    intro fuel st hf h0 hm hr hv hk
    obtain ⟨fuel, rfl⟩ : ∃ n, fuel = n + 1 := ⟨fuel - 1, by omega⟩
    have hc : st.actor.retries ≤ st.actor.maxRetries := by omega
    have hv0 : (st.actor.doFn st.world).1 = true := hv 0 (by omega)
    have hr2 : st.actor.retries ≠ 0 ∨ 0 < st.actor.retryPeriodRange := by
      rcases hr with h | h | h
      · omega
      · exact Or.inl h
      · exact Or.inr h
    obtain ⟨d, hi⟩ := interval_isSome ops raw st.actor hr2
    rw [actLoop_continue ops raw fuel st hc hv0 d hi]
    obtain ⟨res, hres, h1, h2, h3, h4⟩ := ih fuel
      { st with
        actor := { st.actor with retryPeriod := d, retries := st.actor.retries + 1 },
        world := (st.actor.doFn st.world).2,
        calls := st.calls + 1,
        slept := st.slept ++ [d] }
      (by omega) (by simp only; omega) (by simp only; omega)
      (Or.inr (Or.inl (by simp only; omega)))
      (by
        intro i hi2
        simp only
        rw [verdict_shift]
        exact hv (i + 1) (by omega))
      (by
        simp only
        rw [verdict_shift]
        exact hk)
    refine ⟨res, hres, ?_, ?_, ?_, ?_⟩
    · simp only at h1; omega
    · simp only [List.length_append, List.length_singleton] at h2; omega
    · simp only at h3; rw [h3, worldAfter_shift]
    · simpa using h4

/-- When every attempt the counter allows answers `true`, the loop makes all
of them, and sleeps after each one, the last included. -/
theorem actLoop_exhaust {F τ : Type} (ops : Float64Ops F) (raw : Nat) :
    ∀ (n fuel : Nat) (st : ActState F τ),
      n < fuel →
      0 ≤ st.actor.retries →
      (st.actor.maxRetries + 1 - st.actor.retries).toNat = n →
      (n = 0 ∨ st.actor.retries ≠ 0 ∨ 0 < st.actor.retryPeriodRange) →
      (∀ i, i < n → verdict st.actor.doFn st.world i = true) →
      ∃ res, retryActor.actLoop ops raw fuel st = some res ∧
        res.calls = st.calls + n ∧
        res.slept.length = st.slept.length + n ∧
        res.world = worldAfter st.actor.doFn st.world n ∧
        res.panicked = st.panicked := by
  intro n
  induction n with
  | zero =>
    intro fuel st hf h0 hm _ _
    obtain ⟨fuel, rfl⟩ : ∃ n, fuel = n + 1 := ⟨fuel - 1, by omega⟩
    have hc : ¬ st.actor.retries ≤ st.actor.maxRetries := by omega
    refine ⟨_, actLoop_exit ops raw fuel st hc, ?_⟩
    simp [worldAfter]
  | succ n ih =>
    intro fuel st hf h0 hm hr hv
    obtain ⟨fuel, rfl⟩ : ∃ n, fuel = n + 1 := ⟨fuel - 1, by omega⟩
    have hc : st.actor.retries ≤ st.actor.maxRetries := by omega
    have hv0 : (st.actor.doFn st.world).1 = true := hv 0 (by omega)
    have hr2 : st.actor.retries ≠ 0 ∨ 0 < st.actor.retryPeriodRange := by
      rcases hr with h | h | h
      · omega
      · exact Or.inl h
      · exact Or.inr h
    obtain ⟨d, hi⟩ := interval_isSome ops raw st.actor hr2
    rw [actLoop_continue ops raw fuel st hc hv0 d hi]
    obtain ⟨res, hres, h1, h2, h3, h4⟩ := ih fuel
      { st with
        actor := { st.actor with retryPeriod := d, retries := st.actor.retries + 1 },
        world := (st.actor.doFn st.world).2,
        calls := st.calls + 1,
        slept := st.slept ++ [d] }
      (by omega) (by simp only; omega) (by simp only; omega)
      (Or.inr (Or.inl (by simp only; omega)))
      (by
        intro i hi2
        simp only
        rw [verdict_shift]
        exact hv (i + 1) (by omega))
    refine ⟨res, hres, ?_, ?_, ?_, ?_⟩
    · simp only at h1; omega
    · simp only [List.length_append, List.length_singleton] at h2; omega
    · simp only at h3; rw [h3, worldAfter_shift]
    · simpa using h4

theorem act_fuel_enough {F τ : Type} (r : retryActor F τ) :
    (r.maxRetries + 1 - 0).toNat < r.actFuel := by
  simp [retryActor.actFuel]

theorem verdict_of_always {τ : Type} (f : τ → Bool × τ) (b : Bool) (h : ∀ s, (f s).1 = b)
    (w : τ) (i : Nat) : verdict f w i = b := h _

theorem worldAfter_attempt_superAgent {F σ : Type}
    (exec : σ → (GoResponse × Bytes × List Err) × σ) (r : requestImpl F σ) (s : Captured σ)
    (n : Nat) :
    (worldAfter (r.attempt exec) s n).superAgent = agentAfter exec s.superAgent n := by
  induction n with
  | zero => rfl
  | succ n ih => simp only [worldAfter, agentAfter, requestImpl.attempt, ih]

theorem worldAfter_attempt_succ {F σ : Type}
    (exec : σ → (GoResponse × Bytes × List Err) × σ) (r : requestImpl F σ) (s : Captured σ)
    (n : Nat) :
    worldAfter (r.attempt exec) s (n + 1) =
      { superAgent := agentAfter exec s.superAgent (n + 1),
        resp := convert (exchange exec s.superAgent n).1,
        body := (exchange exec s.superAgent n).2.1,
        errors := (exchange exec s.superAgent n).2.2 } := by
  simp only [worldAfter, agentAfter, exchange, requestImpl.attempt,
    worldAfter_attempt_superAgent]

/-- The loop never makes more attempts than the counter allows. -/
theorem actLoop_calls_le {F τ : Type} (ops : Float64Ops F) (raw : Nat) :
    ∀ (fuel : Nat) (st res : ActState F τ),
      retryActor.actLoop ops raw fuel st = some res →
      res.calls ≤ st.calls + (st.actor.maxRetries + 1 - st.actor.retries).toNat := by
  intro fuel
  induction fuel with
  | zero => intro st res h; simp [retryActor.actLoop] at h
  | succ fuel ih =>
    intro st res h
    by_cases hc : st.actor.retries ≤ st.actor.maxRetries
    · cases hv : (st.actor.doFn st.world).1 with
      | false =>
        rw [actLoop_stop ops raw fuel st hc hv] at h
        simp only [Option.some.injEq] at h
        subst h
        simp only
        omega
      | true =>
        cases hi : st.actor.interval ops raw with
        | none =>
          rw [actLoop_panic ops raw fuel st hc hv hi] at h
          simp only [Option.some.injEq] at h
          subst h
          simp only
          omega
        | some da =>
          obtain ⟨d, a⟩ := da
          have ha := interval_eq ops raw st.actor d a hi
          subst ha
          rw [actLoop_continue ops raw fuel st hc hv d hi] at h
          have := ih _ res h
          simp only at this
          omega
    · rw [actLoop_exit ops raw fuel st hc] at h
      simp only [Option.some.injEq] at h
      subst h
      omega

/-- A terminal operation of a session with `maxRetries ≥ 0` ends with the
captured variables holding the outcome of the last exchange it made. -/
theorem retryEnd_last_attempt {F σ : Type} (ops : Float64Ops F) (raw : Nat)
    (exec : σ → (GoResponse × Bytes × List Err) × σ) (r : requestImpl F σ)
    (h : 0 ≤ r.maxRetries) :
    ∃ st, r.retryEnd ops raw (r.attempt exec) r.start = some st ∧
      1 ≤ st.calls ∧ (st.calls : Int) ≤ r.maxRetries + 1 ∧
      st.world =
        { superAgent := agentAfter exec r.superAgent st.calls,
          resp := convert (exchange exec r.superAgent (st.calls - 1)).1,
          body := (exchange exec r.superAgent (st.calls - 1)).2.1,
          errors := (exchange exec r.superAgent (st.calls - 1)).2.2 } ∧
      (0 < r.retryPeriodRange → st.panicked = false) := by
  obtain ⟨st, hst⟩ := actLoop_total ops raw (r.newRetryActor (r.attempt exec)).actFuel
    { actor := { r.newRetryActor (r.attempt exec) with retries := 0 }, world := r.start,
      calls := 0, slept := [], panicked := false }
    (act_fuel_enough _)
  obtain ⟨_, h2, h3⟩ := actLoop_trace ops raw _ _ st hst
  have h4 := actLoop_calls_le ops raw _ _ st hst
  have h5 := actLoop_no_panic ops raw _ _ st hst (le_refl _)
  simp only [requestImpl.newRetryActor, Nat.sub_zero, Nat.zero_add, sub_zero] at h2 h3 h4 h5
  have hpos : 0 < st.calls := h3 h
  refine ⟨st, hst, hpos, by omega, ?_, fun hr => ?_⟩
  · obtain ⟨n, hn⟩ : ∃ n, st.calls = n + 1 := ⟨st.calls - 1, by omega⟩
    rw [h2, hn, worldAfter_attempt_succ]
    rfl
  · simpa using h5 (Or.inr hr)

/-- A terminal operation always comes to an end, and without a panic when the
jitter range is positive. -/
theorem retryEnd_total {F σ : Type} (ops : Float64Ops F) (raw : Nat)
    (exec : σ → (GoResponse × Bytes × List Err) × σ) (r : requestImpl F σ) :
    ∃ st, r.retryEnd ops raw (r.attempt exec) r.start = some st ∧
      (0 < r.retryPeriodRange → st.panicked = false) := by
  obtain ⟨st, hst⟩ := actLoop_total ops raw (r.newRetryActor (r.attempt exec)).actFuel
    { actor := { r.newRetryActor (r.attempt exec) with retries := 0 }, world := r.start,
      calls := 0, slept := [], panicked := false }
    (act_fuel_enough _)
  have h5 := actLoop_no_panic ops raw _ _ st hst (le_refl _)
  simp only [requestImpl.newRetryActor] at h5
  exact ⟨st, hst, fun hr => by simpa using h5 (Or.inr hr)⟩

theorem wrap64_of_range (x : Int) (h1 : minInt64 ≤ x) (h2 : x ≤ maxInt64) : wrap64 x = x := by
  unfold wrap64
  unfold minInt64 at h1
  unfold maxInt64 at h2
  rw [Int.emod_eq_of_lt (by omega) (by omega)]
  omega

theorem shouldRetry_default_true_iff (resp : Option Response) (body : Bytes) (errors : List Err) :
    defaultShouldRetry resp body errors = true ↔ ∃ r, resp = some r ∧ r.StatusCode > 499 := by
  cases resp with
  | none => simp [defaultShouldRetry]
  | some r => simp [defaultShouldRetry]

theorem bitLengthAux_le : ∀ (fuel m k : Nat), m ≤ fuel →
    (bitLengthAux fuel m ≤ k ↔ m < 2 ^ k) := by
  intro fuel
  induction fuel with
  | zero =>
    intro m k hm
    have : m = 0 := by omega
    subst this
    simp [bitLengthAux]
  | succ fuel ih =>
    intro m k hm
    by_cases h0 : m = 0
    · subst h0
      simp [bitLengthAux]
    · simp only [bitLengthAux, h0, if_false]
      cases k with
      | zero =>
        simp only [pow_zero, Nat.lt_one_iff]
        constructor
        · intro h; omega
        · intro h; exact absurd h h0
      | succ k =>
        rw [Nat.add_le_add_iff_right, ih (m / 2) k (by omega), pow_succ]
        exact Nat.div_lt_iff_lt_mul (by decide)

theorem bitLength_le (m k : Nat) : bitLength m ≤ k ↔ m < 2 ^ k :=
  bitLengthAux_le m m k (le_refl m)

theorem round_exact (neg : Bool) (m : Nat) (e : Int) (hm : m < 2 ^ 53) (he : -1074 ≤ e)
    (hbig : (bitLength m : Int) + e ≤ 1024) : F64.round neg m e = F64.finite neg m e := by
  have hb : bitLength m ≤ 53 := (bitLength_le m 53).mpr hm
  have hshift : (max ((bitLength m : Int) - 53) (-1074 - e)).toNat = 0 := by
    rw [Int.toNat_eq_zero]
    exact max_le (by omega) (by omega)
  simp only [F64.round, hshift, pow_zero, Nat.div_one, Nat.mod_one, Nat.mul_zero]
  simp only [Nat.cast_zero, add_zero, if_neg (Bool.false_ne_true), ite_eq_right_iff]
  simp [hbig]

theorem ofInt64_small (p : Int) (hp : p.natAbs < 2 ^ 53) :
    F64.ofInt64 p = F64.finite (decide (p < 0)) p.natAbs 0 := by
  have hb : bitLength p.natAbs ≤ 53 := (bitLength_le _ 53).mpr hp
  exact round_exact _ _ 0 hp (by decide) (by omega)

theorem toInt64_integer (undef : F64 → Int) (p : Int) (hp : p.natAbs < 2 ^ 53) :
    F64.toInt64 undef (F64.finite (decide (p < 0)) p.natAbs 0) = p := by
  have h1 : minInt64 ≤ p ∧ p ≤ maxInt64 := by
    unfold minInt64 maxInt64
    omega
  by_cases hneg : p < 0
  · simp [F64.toInt64, hneg, abs_of_neg hneg, h1]
  · simp [F64.toInt64, hneg, abs_of_nonneg (not_lt.mp hneg), h1]

/-- With a backoff of one the next delay is the previous one, when the
previous one is below `2^53` in magnitude. -/
theorem nextDelay_one (undef : F64 → Int) (p : Int) (hp : p.natAbs < 2 ^ 53) :
    nextDelay (ieee undef) F64.one p = p := by
  have h1 : F64.one = F64.finite false 1 0 := by decide
  have hb : bitLength p.natAbs ≤ 53 := (bitLength_le _ 53).mpr hp
  simp only [nextDelay, ieee, ofInt64_small p hp, h1, F64.mul, Bool.xor_false, Nat.mul_one,
    add_zero]
  rw [round_exact _ _ 0 hp (by decide) (by omega)]
  exact toInt64_integer undef p hp

theorem round_zero (neg : Bool) (e : Int) : ∃ e1, F64.round neg 0 e = F64.finite neg 0 e1 := by
  simp [F64.round]

theorem toInt64_zero (undef : F64 → Int) (neg : Bool) (e : Int) :
    F64.toInt64 undef (F64.finite neg 0 e) = 0 := by
  simp [F64.toInt64, minInt64, maxInt64]

theorem ofInt64_finite (p : Int) (hp : p.natAbs < 2 ^ 64) :
    ∃ m e, F64.ofInt64 p = F64.finite (decide (p < 0)) m e := by
  have hb : bitLength p.natAbs ≤ 64 := (bitLength_le _ 64).mpr hp
  have hk : (max ((bitLength p.natAbs : Int) - 53) (-1074 - 0)).toNat ≤ 64 := by
    rw [Int.toNat_le]
    exact max_le (by omega) (by decide)
  unfold F64.ofInt64 F64.round
  dsimp only
  generalize (max ((bitLength p.natAbs : Int) - 53) (-1074 - 0)).toNat = k at hk
  have hq : p.natAbs / 2 ^ k ≤ p.natAbs := Nat.div_le_self _ _
  generalize (decide (2 * (p.natAbs % 2 ^ k) > 2 ^ k) ||
    decide (2 * (p.natAbs % 2 ^ k) = 2 ^ k) && decide (p.natAbs / 2 ^ k % 2 = 1)) = up
  have hm1 : (if up = true then p.natAbs / 2 ^ k + 1 else p.natAbs / 2 ^ k) < 2 ^ 65 := by
    split <;> omega
  generalize (if up = true then p.natAbs / 2 ^ k + 1 else p.natAbs / 2 ^ k) = m1 at hm1
  have hb1 : bitLength m1 ≤ 65 := (bitLength_le _ 65).mpr hm1
  rw [if_neg (by omega)]
  exact ⟨_, _, rfl⟩

/-- With a backoff of zero, of either sign, the next delay is zero. -/
theorem nextDelay_zero (undef : F64 → Int) (t : Bool) (e : Int) (p : Int)
    (h1 : minInt64 ≤ p) (h2 : p ≤ maxInt64) :
    nextDelay (ieee undef) (F64.finite t 0 e) p = 0 := by
  obtain ⟨m1, e1, h⟩ := ofInt64_finite p (by unfold minInt64 at h1; unfold maxInt64 at h2; omega)
  obtain ⟨e3, h3⟩ := round_zero (xor (decide (p < 0)) t) (e1 + e)
  simp only [nextDelay, ieee, h, F64.mul, Nat.mul_zero, h3]
  exact toInt64_zero undef _ _

theorem toInt64_fraction (undef : F64 → Int) (neg : Bool) (n k : Nat) (hn : n < 2 ^ 53) :
    F64.toInt64 undef (F64.finite neg n (-(k : Int)))
      = if neg then -((n / 2 ^ k : Nat) : Int) else ((n / 2 ^ k : Nat) : Int) := by
  have hdiv : n / 2 ^ k ≤ n := Nat.div_le_self _ _
  have hmag : (if 0 ≤ -(k : Int) then ((n * 2 ^ (-(k : Int)).toNat : Nat) : Int)
      else ((n / 2 ^ (- -(k : Int)).toNat : Nat) : Int)) = ((n / 2 ^ k : Nat) : Int) := by
    by_cases hk : k = 0
    · subst hk
      simp
    · have : ¬ (0 ≤ -(k : Int)) := by omega
      rw [if_neg this]
      simp
  unfold F64.toInt64
  dsimp only
  rw [hmag]
  clear hmag
  generalize n / 2 ^ k = d at hdiv
  have hr : minInt64 ≤ (if neg = true then -(d : Int) else (d : Int)) ∧
      (if neg = true then -(d : Int) else (d : Int)) ≤ maxInt64 := by
    unfold minInt64 maxInt64
    split <;> omega
  rw [if_pos hr]

/-- Where the product of the significands needs no rounding, the next delay is
the exact product of the previous delay and the backoff, its fraction
discarded. -/
theorem nextDelay_exact (undef : F64 → Int) (p : Int) (t : Bool) (m k : Nat)
    (hp : p.natAbs < 2 ^ 53) (hprod : p.natAbs * m < 2 ^ 53) (hk : k ≤ 1074) :
    nextDelay (ieee undef) (F64.finite t m (-(k : Int))) p
      = Int.tdiv (p * (if t then -(m : Int) else (m : Int))) (2 ^ k) := by
  have hb : bitLength (p.natAbs * m) ≤ 53 := (bitLength_le _ 53).mpr hprod
  simp only [nextDelay, ieee, ofInt64_small p hp, F64.mul, zero_add]
  rw [round_exact _ _ _ hprod (by omega) (by omega), toInt64_fraction undef _ _ _ hprod]
  have hcast : ((2 : Int) ^ k) = ((2 ^ k : Nat) : Int) := by simp
  rw [hcast, Int.ofNat_tdiv]
  by_cases hneg : p < 0
  · have hpabs : (p.natAbs : Int) = -p := by omega
    cases t
    · simp only [hneg, decide_True, Bool.xor_false, if_true, Bool.false_eq_true, if_false,
        Nat.cast_mul, hpabs]
      rw [← Int.neg_tdiv]
      congr 1
      ring
    · simp only [hneg, decide_True, Bool.xor_true, Bool.not_true, Bool.false_eq_true, if_false,
        if_true, Nat.cast_mul, hpabs]
      congr 1
      ring
  · have hpabs : (p.natAbs : Int) = p := by omega
    cases t
    · simp only [hneg, decide_False, Bool.xor_false, Bool.false_eq_true, if_false,
        Nat.cast_mul, hpabs]
    · simp only [hneg, decide_False, Bool.xor_true, Bool.not_false, if_true, Nat.cast_mul, hpabs]
      rw [← Int.neg_tdiv]
      congr 1
      ring

theorem interval_first {F τ : Type} (ops : Float64Ops F) (raw : Nat) (r : retryActor F τ)
    (d : Int) (a : retryActor F τ) (h0 : r.retries = 0) (h : r.interval ops raw = some (d, a)) :
    ∃ j, Int63n raw r.retryPeriodRange = some j ∧ d = wrap64 (j + r.minRetryPeriod) := by
  unfold retryActor.interval at h
  rw [if_pos h0] at h
  split at h
  · exact absurd h (by simp)
  · rename_i j hj
    simp only [Option.some.injEq, Prod.mk.injEq] at h
    exact ⟨j, hj, h.1.symm⟩

theorem interval_later {F τ : Type} (ops : Float64Ops F) (raw : Nat) (r : retryActor F τ)
    (h0 : r.retries ≠ 0) :
    r.interval ops raw
      = some (nextDelay ops r.backoff r.retryPeriod,
          { r with retryPeriod := nextDelay ops r.backoff r.retryPeriod }) := by
  simp [retryActor.interval, h0, nextDelay]

/-- The delays slept in a run: the first is the jittered one, and each later
one is computed from the one before it. -/
theorem actLoop_delays {F τ : Type} (ops : Float64Ops F) (raw : Nat) (B : F) (mn rg : Int) :
    ∀ (fuel : Nat) (st res : ActState F τ),
      retryActor.actLoop ops raw fuel st = some res →
      st.actor.backoff = B → st.actor.minRetryPeriod = mn → st.actor.retryPeriodRange = rg →
      0 ≤ st.actor.retries →
      st.slept.Chain' (fun a b => b = nextDelay ops B a) →
      (st.actor.retries = 0 → st.slept = []) →
      (st.actor.retries ≠ 0 → st.slept.getLast? = some st.actor.retryPeriod) →
      (∀ d0 ∈ st.slept.head?, ∃ j, Int63n raw rg = some j ∧ d0 = wrap64 (j + mn)) →
      res.slept.Chain' (fun a b => b = nextDelay ops B a) ∧
      (∀ d0 ∈ res.slept.head?, ∃ j, Int63n raw rg = some j ∧ d0 = wrap64 (j + mn)) := by
  intro fuel
  induction fuel with
  | zero => intro st res h; simp [retryActor.actLoop] at h
  | succ fuel ih =>
    intro st res h hB hmn hrg h0 hchain hnil hlast hhead
    by_cases hc : st.actor.retries ≤ st.actor.maxRetries
    · cases hv : (st.actor.doFn st.world).1 with
      | false =>
        rw [actLoop_stop ops raw fuel st hc hv] at h
        simp only [Option.some.injEq] at h
        subst h
        exact ⟨hchain, hhead⟩
      | true =>
        cases hi : st.actor.interval ops raw with
        | none =>
          rw [actLoop_panic ops raw fuel st hc hv hi] at h
          simp only [Option.some.injEq] at h
          subst h
          exact ⟨hchain, hhead⟩
        | some da =>
          obtain ⟨d, a⟩ := da
          have ha := interval_eq ops raw st.actor d a hi
          subst ha
          rw [actLoop_continue ops raw fuel st hc hv d hi] at h
          refine ih _ res h hB hmn hrg (by simp only; omega) ?_ ?_ ?_ ?_
          · simp only
            refine hchain.append (List.chain'_singleton d) ?_
            intro x hx y hy
            simp only [List.head?_cons, Option.mem_def, Option.some.injEq] at hy
            subst hy
            by_cases hr0 : st.actor.retries = 0
            · rw [hnil hr0] at hx
              simp at hx
            · rw [hlast hr0] at hx
              simp only [Option.mem_def, Option.some.injEq] at hx
              rw [interval_later ops raw st.actor hr0] at hi
              simp only [Option.some.injEq, Prod.mk.injEq] at hi
              rw [← hi.1, hB, hx]
          · intro hr
            simp only at hr
            omega
          · intro _
            simp only
            exact List.getLast?_concat _
          · intro d0 hd0
            simp only at hd0
            by_cases hr0 : st.actor.retries = 0
            · rw [hnil hr0] at hd0
              simp only [List.nil_append, List.head?_cons, Option.mem_def,
                Option.some.injEq] at hd0
              subst hd0
              obtain ⟨j, hj, hd⟩ := interval_first ops raw st.actor _ _ hr0 hi
              exact ⟨j, by rw [← hrg]; exact hj, by rw [← hmn]; exact hd⟩
            · have hne : st.slept ≠ [] := by
                intro hnil2
                have := hlast hr0
                rw [hnil2] at this
                simp at this
              rw [List.head?_append_of_ne_nil _ hne] at hd0
              exact hhead d0 hd0
    · rw [actLoop_exit ops raw fuel st hc] at h
      simp only [Option.some.injEq] at h
      subst h
      exact ⟨hchain, hhead⟩

theorem act_delays {F τ : Type} (ops : Float64Ops F) (raw : Nat) (r : retryActor F τ) (w : τ)
    (res : ActState F τ) (h : r.act ops raw w = some res) :
    res.slept.Chain' (fun a b => b = nextDelay ops r.backoff a) ∧
    (∀ d0 ∈ res.slept.head?,
      ∃ j, Int63n raw r.retryPeriodRange = some j ∧ d0 = wrap64 (j + r.minRetryPeriod)) :=
  actLoop_delays ops raw r.backoff r.minRetryPeriod r.retryPeriodRange _ _ res h rfl rfl rfl
    (le_refl _) List.chain'_nil (fun _ => rfl) (fun h => absurd rfl h) (by simp)

theorem chain_forall {α : Type} (R : α → α → Prop) (P : α → Prop)
    (hstep : ∀ a b, P a → R a b → P b) :
    ∀ l : List α, l.Chain' R → (∀ a ∈ l.head?, P a) → ∀ d ∈ l, P d := by
  intro l
  induction l with
  | nil => intro _ _ d hd; simp at hd
  | cons a l ih =>
    intro hchain hhead d hd
    have ha : P a := hhead a (by simp)
    rcases List.mem_cons.mp hd with rfl | hmem
    · exact ha
    · refine ih (List.Chain'.tail hchain) ?_ d hmem
      intro b hb
      cases l with
      | nil => simp at hb
      | cons c l =>
        simp only [List.head?_cons, Option.mem_def, Option.some.injEq] at hb
        subst hb
        exact hstep a c ha (List.chain'_cons.mp hchain).1

theorem wrap64_range (x : Int) : minInt64 ≤ wrap64 x ∧ wrap64 x ≤ maxInt64 := by
  unfold wrap64 minInt64 maxInt64
  have h1 := Int.emod_nonneg (x + 2 ^ 63) (by decide : (2 : Int) ^ 64 ≠ 0)
  have h2 := Int.emod_lt_of_pos (x + 2 ^ 63) (by decide : (0 : Int) < 2 ^ 64)
  omega

/-- With a negative `maxRetries` the loop condition fails at once: the attempt
function is never invoked and nothing is slept. -/
theorem act_negative {F τ : Type} (ops : Float64Ops F) (raw : Nat) (r : retryActor F τ) (w : τ)
    (h : r.maxRetries < 0) :
    r.act ops raw w
      = some { actor := { r with retries := 0 }, world := w, calls := 0, slept := [],
               panicked := false } := by
  have hfuel : r.actFuel = 0 + 1 := by
    unfold retryActor.actFuel
    rw [Int.toNat_eq_zero.mpr (by omega)]
  unfold retryActor.act
  rw [hfuel]
  exact actLoop_exit ops raw 0 _ (by simp only; omega)

theorem convert_same (goResp : GoResponse) : convert goResp = goResp := by
  cases goResp <;> rfl

/-! ## Properties of the specification -/

/-- C1, as stated, fails for an actor whose jitter range is not positive: with
`maxRetries = 1`, a range of zero and an attempt function that always answers
`true`, `Int63n` panics in the first call of `interval`, after one invocation
of the attempt function, not two.  It also fails at the largest `int`, where
the increment of the counter gives the smallest `int`, for which the loop
condition holds again. -/
theorem act_zero_range_panics :
    ((zeroRangeActor 1 countingRetry).act amd64 7 0).map
        (fun res => (res.calls, res.slept, res.panicked))
      = some (1, [], true) ∧
    (zeroRangeActor 1 countingRetry).maxRetries = 1 ∧
    (∀ n, (countingRetry n).1 = true) ∧
    wrap64 (maxInt64 + 1) = minInt64 ∧ minInt64 ≤ maxInt64 := by
  refine ⟨by decide, rfl, fun _ => rfl, by decide, by decide⟩

/-- C1, amended. For every `maxRetries = N` with `0 ≤ N` below the largest
`int`, so that the counter cannot wrap around: an attempt function that always
answers `true` is invoked by `retryActor.act` exactly `N + 1` times (the state
left is the one after that many invocations, no more) when the jitter range of
the actor is positive; and a session of `New().Retry(N, backoff)`, whose jitter
range is 200ms, makes exactly `N + 1` exchanges under the default predicate
when its collaborator always answers with status 500. -/
theorem act_always_retry_calls (N : Int) (hN : 0 ≤ N) (_hmax : N < maxInt64) :
    (∀ (F τ : Type) (ops : Float64Ops F) (raw : Nat) (r : retryActor F τ) (w : τ),
        r.maxRetries = N → 0 < r.retryPeriodRange → (∀ s, (r.doFn s).1 = true) →
        ∃ res, r.act ops raw w = some res ∧ (res.calls : Int) = N + 1 ∧
          res.world = worldAfter r.doFn w res.calls ∧ res.panicked = false) ∧
    (∀ (F σ : Type) (ops : Float64Ops F) (raw : Nat) (C : SuperAgentOps σ) (backoff : F)
        (httpClient transport : Handle),
        (∀ sa, ∃ resp, (C.End sa).1.1 = some resp ∧ resp.StatusCode = 500) →
        ∃ res, (((New ops httpClient transport).Retry N backoff []).Request C).End ops raw C
            = some res ∧
          (res.calls : Int) = N + 1 ∧
          res.superAgent = agentAfter C.End (C.newSuperAgent httpClient transport) res.calls ∧
          res.panicked = false) := by
  have key : ∀ (F τ : Type) (ops : Float64Ops F) (raw : Nat) (r : retryActor F τ) (w : τ),
      r.maxRetries = N → 0 < r.retryPeriodRange → (∀ s, (r.doFn s).1 = true) →
      ∃ res, r.act ops raw w = some res ∧ (res.calls : Int) = N + 1 ∧
        res.world = worldAfter r.doFn w res.calls ∧ res.panicked = false := by
    intro F τ ops raw r w hr hrange htrue
    obtain ⟨res, hres, h1, _, h3, h4⟩ := actLoop_exhaust ops raw (N + 1).toNat r.actFuel
      { actor := { r with retries := 0 }, world := w, calls := 0, slept := [], panicked := false }
      (by simp [retryActor.actFuel, hr]) (by simp) (by simp [hr])
      (Or.inr (Or.inr hrange)) (fun i _ => verdict_of_always r.doFn true htrue w i)
    refine ⟨res, hres, ?_, ?_, h4⟩
    · rw [h1]; simp only [Nat.zero_add]; omega
    · rw [h1]; simpa using h3
  refine ⟨key, ?_⟩
  intro F σ ops raw C backoff httpClient transport h500
  obtain ⟨st, hst, h1, h2, h3⟩ := key F (Captured σ) ops raw
    ((((New ops httpClient transport).Retry N backoff []).Request C).newRetryActor
      ((((New ops httpClient transport).Retry N backoff []).Request C).attempt C.End))
    (((New ops httpClient transport).Retry N backoff []).Request C).start
    rfl (by simp [requestImpl.newRetryActor, clientImpl.Request, newRequest, clientImpl.Retry,
              New, Millisecond])
    (by
      intro s
      obtain ⟨resp, hresp, hcode⟩ := h500 s.superAgent
      simp [requestImpl.newRetryActor, requestImpl.attempt, clientImpl.Request, newRequest,
        clientImpl.Retry, New, hresp, convert, defaultShouldRetry, hcode])
  refine ⟨EndResult.ofRun st, ?_, h1, ?_, h3⟩
  · simp [requestImpl.End, requestImpl.retryEnd, hst]
  · simp only [EndResult.ofRun, h2]
    exact worldAfter_attempt_superAgent C.End _ _ _

/-- C1, amended, at `N = 5`: the session of `TestHTTPRetry` makes six
exchanges. -/
theorem act_always_retry_calls_witness :
    (0 : Int) ≤ 5 ∧ (5 : Int) < maxInt64 ∧
    ∃ res, (((New amd64 0 0).Retry 5 F64.one []).Request always500).End amd64 7 always500
        = some res ∧
      (res.calls : Int) = 5 + 1 ∧
      res.superAgent = agentAfter always500.End (always500.newSuperAgent 0 0) res.calls ∧
      res.panicked = false :=
  ⟨by decide, by decide,
    (act_always_retry_calls 5 (by decide) (by decide)).2 F64 Nat amd64 7 always500 F64.one 0 0
      (fun _ => ⟨resp500, rfl, rfl⟩)⟩

/-- C2, as stated, fails for an actor whose jitter range is not positive when
the first `false` is not the first answer: with `maxRetries = 5`, a range of
zero and an attempt function whose first `false` is its third answer, `Int63n`
panics in the first call of `interval`, after one invocation of the attempt
function, not three. -/
theorem act_zero_range_stops_early :
    ((zeroRangeActor 5 stopAtThird).act amd64 7 0).map
        (fun res => (res.calls, res.slept, res.panicked))
      = some (1, [], true) ∧
    (zeroRangeActor 5 stopAtThird).maxRetries = 5 ∧
    verdict stopAtThird 0 0 = true ∧ verdict stopAtThird 0 1 = true ∧
    verdict stopAtThird 0 2 = false := by
  decide

/-- C2, amended. For every `maxRetries = N ≥ 0`: when the first `false` of the attempt
function is on its `k`-th invocation, `1 ≤ k ≤ N + 1`, `retryActor.act` invokes
it exactly `k` times and sleeps exactly `k - 1` times, once after each earlier
attempt and not after the `k`-th (for `k ≥ 2` the jitter range is positive,
which `Int63n` requires); an attempt function that always answers `false` is
invoked exactly once and nothing is slept, whatever `N` is. -/
theorem act_stops_at_first_false (N : Int) (hN : 0 ≤ N) {F τ : Type} (ops : Float64Ops F)
    (raw : Nat) (r : retryActor F τ) (w : τ) (hr : r.maxRetries = N) :
    (∀ k : Nat, 1 ≤ k → (k : Int) ≤ N + 1 → (k = 1 ∨ 0 < r.retryPeriodRange) →
        (∀ i, i + 1 < k → verdict r.doFn w i = true) → verdict r.doFn w (k - 1) = false →
        ∃ res, r.act ops raw w = some res ∧ res.calls = k ∧ res.slept.length = k - 1 ∧
          res.world = worldAfter r.doFn w k ∧ res.panicked = false) ∧
    ((∀ s, (r.doFn s).1 = false) →
        ∃ res, r.act ops raw w = some res ∧ res.calls = 1 ∧ res.slept = [] ∧
          res.world = (r.doFn w).2 ∧ res.panicked = false) := by
  have key : ∀ k : Nat, 1 ≤ k → (k : Int) ≤ N + 1 → (k = 1 ∨ 0 < r.retryPeriodRange) →
      (∀ i, i + 1 < k → verdict r.doFn w i = true) → verdict r.doFn w (k - 1) = false →
      ∃ res, r.act ops raw w = some res ∧ res.calls = k ∧ res.slept.length = k - 1 ∧
        res.world = worldAfter r.doFn w k ∧ res.panicked = false := by
    intro k hk1 hkN hrange htrue hfalse
    obtain ⟨res, hres, h1, h2, h3, h4⟩ := actLoop_first_stop ops raw (k - 1) r.actFuel
      { actor := { r with retries := 0 }, world := w, calls := 0, slept := [], panicked := false }
      (by simp only [retryActor.actFuel, hr]; omega) (by simp)
      (by simp only [hr]; omega)
      (by
        rcases hrange with h | h
        · exact Or.inl (by omega)
        · exact Or.inr (Or.inr h))
      (fun i hi => htrue i (by omega)) hfalse
    refine ⟨res, hres, ?_, ?_, ?_, h4⟩
    · rw [h1]; simp only [Nat.zero_add]; omega
    · rw [h2]; simp
    · rw [h3]
      simp only
      congr 1
      omega
  refine ⟨key, ?_⟩
  intro hstop
  obtain ⟨res, hres, h1, h2, h3, h4⟩ := key 1 (le_refl 1) (by omega) (Or.inl rfl)
    (fun i hi => absurd hi (by omega)) (hstop w)
  exact ⟨res, hres, h1, List.length_eq_zero.mp (by simpa using h2), by simpa [worldAfter] using h3,
    h4⟩

/-- C2, amended, at `N = 5` with an attempt function whose first `false` is its third
answer: three invocations and two sleeps. -/
theorem act_stops_at_first_false_witness :
    (0 : Int) ≤ 5 ∧
    ∃ res, (sampleActor 5 stopAtThird).act amd64 7 0 = some res ∧ res.calls = 3 ∧
      res.slept.length = 3 - 1 ∧ res.world = worldAfter stopAtThird 0 3 ∧
      res.panicked = false :=
  ⟨by decide,
    (act_stops_at_first_false 5 (by decide) amd64 7 (sampleActor 5 stopAtThird) 0 rfl).1 3
      (by decide) (by decide) (Or.inr (by decide))
      (by
        intro i hi
        have hi2 : i = 0 ∨ i = 1 := by omega
        rcases hi2 with rfl | rfl <;> rfl)
      rfl⟩

/-- C3. `defaultShouldRetry` answers `true` exactly when a response is present
and its status code is above 499, whatever the body and the error list are; so
it answers `false` for a nil response and for a status of at most 499. -/
theorem defaultShouldRetry_iff (resp : Option Response) (body : Bytes) (errors : List Err) :
    (defaultShouldRetry resp body errors = true ↔ ∃ r, resp = some r ∧ r.StatusCode > 499) ∧
    defaultShouldRetry none body errors = false ∧
    (∀ r : Response, r.StatusCode ≤ 499 → defaultShouldRetry (some r) body errors = false) := by
  refine ⟨?_, rfl, ?_⟩
  · cases resp with
    | none => simp [defaultShouldRetry]
    | some r => simp [defaultShouldRetry]
  · intro r hr
    simp only [defaultShouldRetry, decide_eq_false_iff_not]
    omega

/-- C4, the code at `maxRetries = 0` with an attempt function that always asks
for a retry: one attempt is made and one delay is computed and slept after it;
a session of `New()` whose collaborator answers 500 does the same. -/
theorem act_sleeps_after_last_attempt :
    ((sampleActor 0 countingRetry).act amd64 7 0).map (fun res => (res.calls, res.slept))
      = some (1, [100000007]) ∧
    (((New amd64 0 0).Request always500).End amd64 7 always500).map
        (fun res => (res.calls, res.slept, res.panicked))
      = some (1, [100000007], false) := by
  constructor <;> decide

/-- C5, as stated, fails where the sum leaves the `int64` range: with
`minRetryPeriod` the largest `int64`, a range of two and a draw of one, the
first delay is the smallest `int64`, which is below `minRetryPeriod`. -/
theorem first_delay_wraps_around :
    (overflowActor.interval amd64 1).map Prod.fst = some (-9223372036854775808) ∧
    (0 : Int) < overflowActor.retryPeriodRange ∧
    ¬ (overflowActor.minRetryPeriod ≤ -9223372036854775808) := by
  decide

/-- C5, amended. When `minRetryPeriod` is an `int64`, `retryPeriodRange > 0` and
`minRetryPeriod + retryPeriodRange - 1` does not exceed the largest `int64`, the
first delay returned by `retryActor.interval` in a run (`retries = 0`) is
`minRetryPeriod + j` with `0 ≤ j < retryPeriodRange`, so it lies in
`[minRetryPeriod, minRetryPeriod + retryPeriodRange)`, for every draw of the
random source; for a session of a client built by `New()`, reconfigured by
`Retry` or not, it lies in `[100ms, 300ms)`. -/
theorem interval_first_delay :
    (∀ (F τ : Type) (ops : Float64Ops F) (raw : Nat) (r : retryActor F τ),
        r.retries = 0 → 0 < r.retryPeriodRange → minInt64 ≤ r.minRetryPeriod →
        r.minRetryPeriod + r.retryPeriodRange - 1 ≤ maxInt64 →
        ∃ j d, 0 ≤ j ∧ j < r.retryPeriodRange ∧ d = r.minRetryPeriod + j ∧
          r.interval ops raw = some (d, { r with retryPeriod := d }) ∧
          r.minRetryPeriod ≤ d ∧ d < r.minRetryPeriod + r.retryPeriodRange) ∧
    (∀ (F σ τ : Type) (ops : Float64Ops F) (raw : Nat) (C : SuperAgentOps σ)
        (httpClient transport : Handle) (c : clientImpl F) (doFn : τ → Bool × τ),
        (c = New ops httpClient transport ∨
          ∃ m b ps, c = (New ops httpClient transport).Retry m b ps) →
        ∃ d, ((c.Request C).newRetryActor doFn).interval ops raw
            = some (d, { (c.Request C).newRetryActor doFn with retryPeriod := d }) ∧
          100 * Millisecond ≤ d ∧ d < 300 * Millisecond) := by
  have key : ∀ (F τ : Type) (ops : Float64Ops F) (raw : Nat) (r : retryActor F τ),
      r.retries = 0 → 0 < r.retryPeriodRange → minInt64 ≤ r.minRetryPeriod →
      r.minRetryPeriod + r.retryPeriodRange - 1 ≤ maxInt64 →
      ∃ j d, 0 ≤ j ∧ j < r.retryPeriodRange ∧ d = r.minRetryPeriod + j ∧
        r.interval ops raw = some (d, { r with retryPeriod := d }) ∧
        r.minRetryPeriod ≤ d ∧ d < r.minRetryPeriod + r.retryPeriodRange := by
    intro F τ ops raw r h0 hrange hmin hmax
    have hj0 : 0 ≤ (raw : Int) % r.retryPeriodRange := Int.emod_nonneg _ (by omega)
    have hj1 : (raw : Int) % r.retryPeriodRange < r.retryPeriodRange := Int.emod_lt_of_pos _ hrange
    have hw : wrap64 ((raw : Int) % r.retryPeriodRange + r.minRetryPeriod)
        = r.minRetryPeriod + (raw : Int) % r.retryPeriodRange := by
      rw [wrap64_of_range _ (by omega) (by omega)]
      omega
    refine ⟨(raw : Int) % r.retryPeriodRange, _, hj0, hj1, rfl, ?_, by omega, by omega⟩
    have hr : ¬ r.retryPeriodRange ≤ 0 := by omega
    simp [retryActor.interval, h0, Int63n, hr, hw]
  refine ⟨key, ?_⟩
  intro F σ τ ops raw C httpClient transport c doFn hc
  have hfields : ((c.Request C).newRetryActor doFn).retries = 0 ∧
      ((c.Request C).newRetryActor doFn).minRetryPeriod = 100 * Millisecond ∧
      ((c.Request C).newRetryActor doFn).retryPeriodRange = 200 * Millisecond := by
    rcases hc with rfl | ⟨m, b, ps, rfl⟩
    · exact ⟨rfl, rfl, rfl⟩
    · cases ps <;> exact ⟨rfl, rfl, rfl⟩
  obtain ⟨hf0, hf1, hf2⟩ := hfields
  obtain ⟨j, d, hj0, hj1, hd, hi, _, _⟩ := key F τ ops raw ((c.Request C).newRetryActor doFn)
    hf0 (by rw [hf2]; decide) (by rw [hf1]; decide) (by rw [hf1, hf2]; decide)
  rw [hf1] at hd
  rw [hf2] at hj1
  refine ⟨d, hi, by omega, ?_⟩
  simp only [Millisecond] at hd hj1 ⊢
  omega

/-- C5, amended, at the delays of `New()` and a draw of seven: the first delay
is 100000007 nanoseconds. -/
theorem interval_first_delay_witness :
    ∃ j d, (0 : Int) ≤ j ∧ j < (sampleActor 5 countingRetry).retryPeriodRange ∧
      d = (sampleActor 5 countingRetry).minRetryPeriod + j ∧
      (sampleActor 5 countingRetry).interval amd64 7
        = some (d, { sampleActor 5 countingRetry with retryPeriod := d }) ∧
      (sampleActor 5 countingRetry).minRetryPeriod ≤ d ∧
      d < (sampleActor 5 countingRetry).minRetryPeriod
            + (sampleActor 5 countingRetry).retryPeriodRange :=
  interval_first_delay.1 F64 Nat amd64 7 (sampleActor 5 countingRetry) rfl (by decide) (by decide)
    (by decide)

/-- C6, as stated, fails where the previous delay is not a `float64`: with a
backoff of one and a first delay of `2^53 + 1` nanoseconds the second delay is
`2^53` nanoseconds, not the first delay. -/
theorem later_delay_rounds :
    (roundingActor.act amd64 0 0).map (fun res => res.slept)
      = some [9007199254740993, 9007199254740992] ∧
    roundingActor.backoff = F64.one ∧
    nextDelay amd64 F64.one 9007199254740993 ≠ 9007199254740993 * 1 := by
  decide

/-- C6, amended. After the first retry of a run (`retries ≥ 1`) the delay
returned by `retryActor.interval` is `int64(float64(previous) * backoff)`, the
previous delay being the one slept last, whatever the random source draws; so
each delay slept in a run after the first is that function of the one before
it.  In binary64 arithmetic it is the exact product of the previous delay and
the backoff with the fraction discarded wherever the product of the
significands needs no rounding (previous delay and product both below `2^53`);
with a backoff of zero every delay after the first is zero; with a backoff of
one every delay equals the first delay when that is below `2^53` nanoseconds in
magnitude, as it is in every session of a client built by `New()`, where every
delay is `100ms` plus the jitter drawn. -/
theorem later_delay_from_previous :
    (∀ (F τ : Type) (ops : Float64Ops F) (raw raw2 : Nat) (r : retryActor F τ),
        r.retries ≠ 0 →
        r.interval ops raw
          = some (nextDelay ops r.backoff r.retryPeriod,
              { r with retryPeriod := nextDelay ops r.backoff r.retryPeriod }) ∧
        r.interval ops raw2 = r.interval ops raw) ∧
    (∀ (F τ : Type) (ops : Float64Ops F) (raw : Nat) (r : retryActor F τ) (w : τ)
        (res : ActState F τ),
        r.act ops raw w = some res →
        res.slept.Chain' (fun a b => b = nextDelay ops r.backoff a)) ∧
    (∀ (undef : F64 → Int) (p : Int) (t : Bool) (m k : Nat),
        p.natAbs < 2 ^ 53 → p.natAbs * m < 2 ^ 53 → k ≤ 1074 →
        nextDelay (ieee undef) (F64.finite t m (-(k : Int))) p
          = Int.tdiv (p * (if t then -(m : Int) else (m : Int))) (2 ^ k)) ∧
    (∀ (undef : F64 → Int) (τ : Type) (raw : Nat) (r : retryActor F64 τ) (w : τ)
        (res : ActState F64 τ) (t : Bool) (e : Int),
        r.backoff = F64.finite t 0 e → r.act (ieee undef) raw w = some res →
        ∀ d ∈ res.slept.tail, d = 0) ∧
    (∀ (undef : F64 → Int) (τ : Type) (raw : Nat) (r : retryActor F64 τ) (w : τ)
        (res : ActState F64 τ),
        r.backoff = F64.one → r.act (ieee undef) raw w = some res →
        ∀ d0 ∈ res.slept.head?, d0.natAbs < 2 ^ 53 → ∀ d ∈ res.slept, d = d0) ∧
    (∀ (undef : F64 → Int) (σ : Type) (raw : Nat) (C : SuperAgentOps σ) (N : Int)
        (ps : List ShouldRetry) (httpClient transport : Handle) (res : EndResult σ),
        (((New (ieee undef) httpClient transport).Retry N F64.one ps).Request C).End
            (ieee undef) raw C = some res →
        ∀ d ∈ res.slept, d = 100 * Millisecond + (raw : Int) % (200 * Millisecond)) := by
  have hone : ∀ (undef : F64 → Int) (τ : Type) (raw : Nat) (r : retryActor F64 τ) (w : τ)
      (res : ActState F64 τ),
      r.backoff = F64.one → r.act (ieee undef) raw w = some res →
      ∀ d0 ∈ res.slept.head?, d0.natAbs < 2 ^ 53 → ∀ d ∈ res.slept, d = d0 := by
    intro undef τ raw r w res hb hres d0 hd0 hsmall
    obtain ⟨hchain, _⟩ := act_delays (ieee undef) raw r w res hres
    refine chain_forall _ (fun d => d = d0) ?_ res.slept hchain ?_
    · intro a b ha hab
      rw [hab, hb, ha]
      exact nextDelay_one undef d0 hsmall
    · intro a ha
      simp only [Option.mem_def] at ha hd0
      rw [ha] at hd0
      exact Option.some.inj hd0
  refine ⟨?_, ?_, nextDelay_exact, ?_, hone, ?_⟩
  · intro F τ ops raw raw2 r hr
    exact ⟨interval_later ops raw r hr,
      by rw [interval_later ops raw r hr, interval_later ops raw2 r hr]⟩
  · intro F τ ops raw r w res hres
    exact (act_delays ops raw r w res hres).1
  · intro undef τ raw r w res t e hb hres
    obtain ⟨hchain, hhead⟩ := act_delays (ieee undef) raw r w res hres
    cases hs : res.slept with
    | nil => intro d hd; simp at hd
    | cons a l =>
      rw [hs] at hchain hhead
      obtain ⟨j, _, ha⟩ := hhead a (by simp)
      have harange := wrap64_range (j + r.minRetryPeriod)
      rw [← ha] at harange
      simp only [List.tail_cons]
      refine chain_forall _ (fun d => d = 0) ?_ l (List.Chain'.tail hchain) ?_
      · intro x y hx hxy
        rw [hxy, hb, hx]
        exact nextDelay_zero undef t e 0 (by decide) (by decide)
      · intro b hbm
        cases l with
        | nil => simp at hbm
        | cons c l =>
          simp only [List.head?_cons, Option.mem_def, Option.some.injEq] at hbm
          subst hbm
          rw [(List.chain'_cons.mp hchain).1, hb]
          exact nextDelay_zero undef t e a harange.1 harange.2
  · intro undef σ raw C N ps httpClient transport res hres
    simp only [requestImpl.End, requestImpl.retryEnd, Option.map_eq_some'] at hres
    obtain ⟨st, hst, hof⟩ := hres
    have hslept : res.slept = st.slept := by rw [← hof]; rfl
    rw [hslept]
    obtain ⟨_, hhead⟩ := act_delays (ieee undef) raw _ _ st hst
    have hfields :
        ((((New (ieee undef) httpClient transport).Retry N F64.one ps).Request C).newRetryActor
            ((((New (ieee undef) httpClient transport).Retry N F64.one ps).Request C).attempt
              C.End)).backoff = F64.one ∧
        ((((New (ieee undef) httpClient transport).Retry N F64.one ps).Request C).newRetryActor
            ((((New (ieee undef) httpClient transport).Retry N F64.one ps).Request C).attempt
              C.End)).minRetryPeriod = 100 * Millisecond ∧
        ((((New (ieee undef) httpClient transport).Retry N F64.one ps).Request C).newRetryActor
            ((((New (ieee undef) httpClient transport).Retry N F64.one ps).Request C).attempt
              C.End)).retryPeriodRange = 200 * Millisecond := by
      cases ps <;> exact ⟨rfl, rfl, rfl⟩
    obtain ⟨hf1, hf2, hf3⟩ := hfields
    rw [hf2, hf3] at hhead
    cases hs : st.slept with
    | nil => intro d hd; simp at hd
    | cons a l =>
      rw [hs] at hhead
      obtain ⟨j, hj, ha⟩ := hhead a (by simp)
      have hjv : j = (raw : Int) % (200 * Millisecond) := by
        unfold Int63n at hj
        rw [if_neg (by decide)] at hj
        exact (Option.some.inj hj).symm
      have hj0 : 0 ≤ (raw : Int) % (200 * Millisecond) := Int.emod_nonneg _ (by decide)
      have hj1 : (raw : Int) % (200 * Millisecond) < 200 * Millisecond :=
        Int.emod_lt_of_pos _ (by decide)
      have hval : a = 100 * Millisecond + (raw : Int) % (200 * Millisecond) := by
        rw [ha, hjv, wrap64_of_range _ (by unfold minInt64; simp only [Millisecond] at hj0 ⊢; omega)
          (by unfold maxInt64; simp only [Millisecond] at hj1 ⊢; omega)]
        ring
      intro d hd
      rw [← hval]
      refine hone undef _ raw _ _ st hf1 hst a (by rw [hs]; simp) ?_ d (by rw [hs]; exact hd)
      rw [hval]
      simp only [Millisecond] at hj0 hj1 ⊢
      omega

/-- C6, amended, at a first delay of 100000007 nanoseconds and a backoff of
one and a half: the next delay is 150000010 nanoseconds. -/
theorem later_delay_from_previous_witness :
    nextDelay amd64 (F64.finite false 3 (-((1 : Nat) : Int))) 100000007
        = Int.tdiv (100000007 * (if false then -((3 : Nat) : Int) else ((3 : Nat) : Int))) (2 ^ 1) ∧
    Int.tdiv (100000007 * (if false then -((3 : Nat) : Int) else ((3 : Nat) : Int))) (2 ^ 1)
        = 150000010 :=
  ⟨later_delay_from_previous.2.2.1 undefAmd64 100000007 false 3 1 (by decide) (by decide)
      (by decide),
    by decide⟩

/-- C7. `convert` maps nil to nil and a response to a response with the same
fields.  For every session with `maxRetries ≥ 0` and every collaborator, `End`
and `EndBytes` come to an end having made at least one exchange, and their
results are those of the last exchange made: the response is `convert` of its
native response, so nil when that is nil and otherwise a response with the
same status and fields, the body and the error list are its body and error
list; the end is a return, not a panic, when the jitter range is positive.  For
a session of `New()` the results are those of the single exchange. -/
theorem End_returns_last_attempt {F σ : Type} (ops : Float64Ops F) (raw : Nat)
    (C : SuperAgentOps σ) (r : requestImpl F σ) (h : 0 ≤ r.maxRetries) :
    (convert none = none ∧ ∀ x : Response, convert (some x) = some x) ∧
    (∃ res, r.End ops raw C = some res ∧ 1 ≤ res.calls ∧
      res.resp = convert (exchange C.End r.superAgent (res.calls - 1)).1 ∧
      res.resp = (exchange C.End r.superAgent (res.calls - 1)).1 ∧
      res.body = (exchange C.End r.superAgent (res.calls - 1)).2.1 ∧
      res.errors = (exchange C.End r.superAgent (res.calls - 1)).2.2 ∧
      res.superAgent = agentAfter C.End r.superAgent res.calls ∧
      (0 < r.retryPeriodRange → res.panicked = false)) ∧
    (∃ res, r.EndBytes ops raw C = some res ∧ 1 ≤ res.calls ∧
      res.resp = convert (exchange C.EndBytes r.superAgent (res.calls - 1)).1 ∧
      res.resp = (exchange C.EndBytes r.superAgent (res.calls - 1)).1 ∧
      res.body = (exchange C.EndBytes r.superAgent (res.calls - 1)).2.1 ∧
      res.errors = (exchange C.EndBytes r.superAgent (res.calls - 1)).2.2 ∧
      res.superAgent = agentAfter C.EndBytes r.superAgent res.calls ∧
      (0 < r.retryPeriodRange → res.panicked = false)) ∧
    (∀ httpClient transport : Handle,
      (∃ res, ((New ops httpClient transport).Request C).End ops raw C = some res ∧
        res.calls = 1 ∧
        res.resp = convert (C.End (C.newSuperAgent httpClient transport)).1.1 ∧
        res.resp = (C.End (C.newSuperAgent httpClient transport)).1.1 ∧
        res.body = (C.End (C.newSuperAgent httpClient transport)).1.2.1 ∧
        res.errors = (C.End (C.newSuperAgent httpClient transport)).1.2.2 ∧
        res.panicked = false) ∧
      (∃ res, ((New ops httpClient transport).Request C).EndBytes ops raw C = some res ∧
        res.calls = 1 ∧
        res.resp = convert (C.EndBytes (C.newSuperAgent httpClient transport)).1.1 ∧
        res.resp = (C.EndBytes (C.newSuperAgent httpClient transport)).1.1 ∧
        res.body = (C.EndBytes (C.newSuperAgent httpClient transport)).1.2.1 ∧
        res.errors = (C.EndBytes (C.newSuperAgent httpClient transport)).1.2.2 ∧
        res.panicked = false)) := by
  have key : ∀ (exec : σ → (GoResponse × Bytes × List Err) × σ) (q : requestImpl F σ),
      0 ≤ q.maxRetries →
      ∃ res, (q.retryEnd ops raw (q.attempt exec) q.start).map EndResult.ofRun = some res ∧
        1 ≤ res.calls ∧ (res.calls : Int) ≤ q.maxRetries + 1 ∧
        res.resp = convert (exchange exec q.superAgent (res.calls - 1)).1 ∧
        res.resp = (exchange exec q.superAgent (res.calls - 1)).1 ∧
        res.body = (exchange exec q.superAgent (res.calls - 1)).2.1 ∧
        res.errors = (exchange exec q.superAgent (res.calls - 1)).2.2 ∧
        res.superAgent = agentAfter exec q.superAgent res.calls ∧
        (0 < q.retryPeriodRange → res.panicked = false) := by
    intro exec q hq
    obtain ⟨st, hst, h1, h2, h3, h4⟩ := retryEnd_last_attempt ops raw exec q hq
    refine ⟨EndResult.ofRun st, by rw [hst]; rfl, h1, h2, ?_, ?_, ?_, ?_, ?_, h4⟩ <;>
      simp only [EndResult.ofRun, h3, convert_same]
  have single : ∀ (exec : σ → (GoResponse × Bytes × List Err) × σ)
      (httpClient transport : Handle),
      ∃ res, (((New ops httpClient transport).Request C).retryEnd ops raw
            (((New ops httpClient transport).Request C).attempt exec)
            ((New ops httpClient transport).Request C).start).map EndResult.ofRun = some res ∧
        res.calls = 1 ∧
        res.resp = convert (exec (C.newSuperAgent httpClient transport)).1.1 ∧
        res.resp = (exec (C.newSuperAgent httpClient transport)).1.1 ∧
        res.body = (exec (C.newSuperAgent httpClient transport)).1.2.1 ∧
        res.errors = (exec (C.newSuperAgent httpClient transport)).1.2.2 ∧
        res.panicked = false := by
    intro exec httpClient transport
    obtain ⟨res, hres, h1, h2, h3, h3b, h4, h5, _, h7⟩ :=
      key exec ((New ops httpClient transport).Request C) (le_refl _)
    have hmax : ((New ops httpClient transport).Request C).maxRetries = 0 := rfl
    have hcalls : res.calls = 1 := by rw [hmax] at h2; omega
    rw [hcalls] at h3 h3b h4 h5
    exact ⟨res, hres, hcalls, h3, h3b, h4, h5,
      h7 (by change (0 : Int) < 200 * Millisecond; decide)⟩
  refine ⟨⟨rfl, fun _ => rfl⟩, ?_, ?_, fun httpClient transport =>
    ⟨single C.End httpClient transport, single C.EndBytes httpClient transport⟩⟩
  · obtain ⟨res, hres, h1, _, h3, h3b, h4, h5, h6, h7⟩ := key C.End r h
    exact ⟨res, hres, h1, h3, h3b, h4, h5, h6, h7⟩
  · obtain ⟨res, hres, h1, _, h3, h3b, h4, h5, h6, h7⟩ := key C.EndBytes r h
    exact ⟨res, hres, h1, h3, h3b, h4, h5, h6, h7⟩

/-- C7 on a session with five retries and a collaborator that fails twice:
`End` makes three exchanges and returns the response of status 200, the body
and the empty error list of the third, nothing of the two before. -/
theorem End_returns_last_attempt_witness :
    (0 : Int) ≤ (((New amd64 0 0).Retry 5 F64.one []).Request flaky).maxRetries ∧
    ((((New amd64 0 0).Retry 5 F64.one []).Request flaky).End amd64 7 flaky).map
        (fun res => (res.calls, res.resp, res.body, res.errors))
      = some (3, some { StatusCode := 200, rest := "" }, [50], []) ∧
    exchange flaky.End 0 2 = (some { StatusCode := 200, rest := "" }, [50], []) ∧
    ∃ res, (((New amd64 0 0).Retry 5 F64.one []).Request flaky).End amd64 7 flaky = some res ∧
      1 ≤ res.calls ∧
      res.resp = convert (exchange flaky.End
        (((New amd64 0 0).Retry 5 F64.one []).Request flaky).superAgent (res.calls - 1)).1 ∧
      res.resp = (exchange flaky.End
        (((New amd64 0 0).Retry 5 F64.one []).Request flaky).superAgent (res.calls - 1)).1 ∧
      res.body = (exchange flaky.End
        (((New amd64 0 0).Retry 5 F64.one []).Request flaky).superAgent (res.calls - 1)).2.1 ∧
      res.errors = (exchange flaky.End
        (((New amd64 0 0).Retry 5 F64.one []).Request flaky).superAgent (res.calls - 1)).2.2 ∧
      res.superAgent = agentAfter flaky.End
        (((New amd64 0 0).Retry 5 F64.one []).Request flaky).superAgent res.calls ∧
      (0 < (((New amd64 0 0).Retry 5 F64.one []).Request flaky).retryPeriodRange →
        res.panicked = false) :=
  ⟨by decide, by decide, by decide,
    (End_returns_last_attempt amd64 7 flaky (((New amd64 0 0).Retry 5 F64.one []).Request flaky)
      (by decide)).2.1⟩

/-- C8. `EndStruct` comes to an end whenever `EndBytes` does, having run the
same retry loop.  When the loop returns (as it does when the jitter range is
positive), `EndStruct` returns the response and the body that `EndBytes`
returns, unchanged; the destination is the one `json.Unmarshal` leaves when
applied once to that body and the caller's destination; the error list is that
of `EndBytes` when decoding succeeds, so an empty one stays empty, and that of
`EndBytes` with the decode error appended last when decoding fails.  In a
session with `maxRetries ≥ 0` the response, body and error list of `EndBytes`
are those of the last exchange made. -/
theorem EndStruct_appends_decode_error {F σ D : Type} (ops : Float64Ops F) (raw : Nat)
    (C : SuperAgentOps σ) (unmarshal : Bytes → D → D × Option Err) (r : requestImpl F σ)
    (content : D) :
    ∃ eb es, r.EndBytes ops raw C = some eb ∧
      r.EndStruct ops raw C unmarshal content = some es ∧
      (0 < r.retryPeriodRange → eb.panicked = false) ∧
      (eb.panicked = false →
        es.toEndResult.resp = eb.resp ∧
        es.toEndResult.body = eb.body ∧
        es.content = (unmarshal eb.body content).1 ∧
        es.toEndResult.errors = eb.errors ++ ((unmarshal eb.body content).2).toList ∧
        ((unmarshal eb.body content).2 = none → es.toEndResult.errors = eb.errors) ∧
        ((unmarshal eb.body content).2 = none → eb.errors = [] → es.toEndResult.errors = []) ∧
        (∀ err, (unmarshal eb.body content).2 = some err →
          es.toEndResult.errors = eb.errors ++ [err]) ∧
        es.toEndResult.superAgent = eb.superAgent ∧
        es.toEndResult.calls = eb.calls ∧
        es.toEndResult.slept = eb.slept ∧
        es.toEndResult.panicked = false) ∧
      (0 ≤ r.maxRetries →
        1 ≤ eb.calls ∧
        eb.resp = convert (exchange C.EndBytes r.superAgent (eb.calls - 1)).1 ∧
        eb.body = (exchange C.EndBytes r.superAgent (eb.calls - 1)).2.1 ∧
        eb.errors = (exchange C.EndBytes r.superAgent (eb.calls - 1)).2.2) := by
  obtain ⟨st, hst, hpanic⟩ := retryEnd_total ops raw C.EndBytes r
  have hlast : 0 ≤ r.maxRetries →
      1 ≤ st.calls ∧
      st.world.resp = convert (exchange C.EndBytes r.superAgent (st.calls - 1)).1 ∧
      st.world.body = (exchange C.EndBytes r.superAgent (st.calls - 1)).2.1 ∧
      st.world.errors = (exchange C.EndBytes r.superAgent (st.calls - 1)).2.2 := by
    intro h
    obtain ⟨st2, hst2, h1, _, h3, _⟩ := retryEnd_last_attempt ops raw C.EndBytes r h
    rw [hst] at hst2
    simp only [Option.some.injEq] at hst2
    subst hst2
    refine ⟨h1, ?_, ?_, ?_⟩ <;> rw [h3]
  cases hp : st.panicked with
  | true =>
    refine ⟨EndResult.ofRun st, ⟨EndResult.ofRun st, content⟩, ?_, ?_, ?_, ?_, hlast⟩
    · simp [requestImpl.EndBytes, hst]
    · simp [requestImpl.EndStruct, hst, hp]
    · intro hr
      rw [hpanic hr] at hp
      exact absurd hp (by decide)
    · intro h
      simp [EndResult.ofRun, hp] at h
  | false =>
    cases hd : (unmarshal st.world.body content).2 with
    | none =>
      refine ⟨EndResult.ofRun st, ⟨EndResult.ofRun st, (unmarshal st.world.body content).1⟩,
        ?_, ?_, ?_, ?_, hlast⟩
      · simp [requestImpl.EndBytes, hst]
      · simp [requestImpl.EndStruct, hst, hp, EndResult.ofRun, hd]
      · intro _
        simp [EndResult.ofRun, hp]
      · intro _
        simp [EndResult.ofRun, hd, hp]
    | some err =>
      refine ⟨EndResult.ofRun st,
        ⟨{ EndResult.ofRun st with errors := st.world.errors ++ [err] },
          (unmarshal st.world.body content).1⟩, ?_, ?_, ?_, ?_, hlast⟩
      · simp [requestImpl.EndBytes, hst]
      · simp [requestImpl.EndStruct, hst, hp, EndResult.ofRun, hd]
      · intro _
        simp [EndResult.ofRun, hp]
      · intro _
        simp [EndResult.ofRun, hd, hp]

/-- C8 on three sessions.  Against the collaborator that fails twice, with
five retries, the last exchange has no error and a body `decodeDigit` accepts:
the error list is empty and the destination is decoded from the last body.
Against the same collaborator with no retry the error of the single exchange
is kept and decoding adds none.  Against the collaborator that answers 500
with an empty body, which `decodeDigit` refuses, the decode error is the one
error returned. -/
theorem EndStruct_appends_decode_error_witness :
    ((((New amd64 0 0).Retry 5 F64.one []).Request flaky).EndStruct amd64 7 flaky decodeDigit
        99).map (fun es => (es.toEndResult.errors, es.content, es.toEndResult.calls))
      = some ([], 2, 3) ∧
    (((New amd64 0 0).Request flaky).EndStruct amd64 7 flaky decodeDigit 99).map
        (fun es => (es.toEndResult.errors, es.content, es.toEndResult.calls))
      = some (["busy"], 0, 1) ∧
    (((New amd64 0 0).Request always500).EndStruct amd64 7 always500 decodeDigit 99).map
        (fun es => (es.toEndResult.errors, es.content, es.toEndResult.calls))
      = some (["unexpected end of JSON input"], 99, 1) ∧
    ∃ eb es, ((New amd64 0 0).Request flaky).EndBytes amd64 7 flaky = some eb ∧
      ((New amd64 0 0).Request flaky).EndStruct amd64 7 flaky decodeDigit 99 = some es ∧
      es.toEndResult.errors = eb.errors ++ ((decodeDigit eb.body 99).2).toList := by
  refine ⟨by decide, by decide, by decide, ?_⟩
  obtain ⟨eb, es, h1, h2, h3, h4, _⟩ := EndStruct_appends_decode_error amd64 7 flaky
    decodeDigit ((New amd64 0 0).Request flaky) 99
  exact ⟨eb, es, h1, h2, (h4 (h3 (by decide))).2.2.2.1⟩

/-- C9, as stated, fails for a client configured earlier with a predicate of
its own: after `Retry(5, 1, neverRetry)` and then `Retry(5, 1)`, the predicate of
the client answers `false` on a response of status 500, where the default
predicate answers `true`, and a session of that client makes one exchange
against a collaborator that always answers 500. -/
theorem Retry_keeps_custom_predicate :
    (((New amd64 0 0).Retry 5 F64.one [neverRetry]).Retry 5 F64.one []).shouldRetry
        (some resp500) [] [] = false ∧
    defaultShouldRetry (some resp500) [] [] = true ∧
    (((((New amd64 0 0).Retry 5 F64.one [neverRetry]).Retry 5 F64.one []).Request
        always500).End amd64 7 always500).map (fun res => res.calls) = some 1 := by
  decide

/-- C9, amended. `c.Retry(maxRetries, backoff)` with no predicate argument
leaves the retry predicate of the client as it was; so for a client built by
`New()`, and not given a predicate since, it is the default predicate, and the
sessions produced afterwards retry exactly when a response of status above 499
was received. -/
theorem Retry_without_predicate {F : Type} (ops : Float64Ops F) (c : clientImpl F)
    (maxRetries : Int) (backoff : F) :
    (c.Retry maxRetries backoff []).shouldRetry = c.shouldRetry ∧
    (c.Retry maxRetries backoff []).maxRetries = maxRetries ∧
    (c.Retry maxRetries backoff []).backoff = backoff ∧
    (∀ httpClient transport : Handle,
      ((New ops httpClient transport).Retry maxRetries backoff []).shouldRetry
        = defaultShouldRetry) ∧
    (∀ (σ : Type) (C : SuperAgentOps σ) (httpClient transport : Handle)
        (resp : Option Response) (body : Bytes) (errors : List Err),
      ((((New ops httpClient transport).Retry maxRetries backoff []).Request C).shouldRetry
          resp body errors = true
        ↔ ∃ x, resp = some x ∧ x.StatusCode > 499)) := by
  refine ⟨rfl, rfl, rfl, fun _ _ => rfl, ?_⟩
  intro σ C httpClient transport resp body errors
  exact (shouldRetry_default_true_iff resp body errors)

/-- C10. The session returned by `c.Request()` holds the values of the
client's retry policy at that moment; a later `c.Retry(m, b, p...)` writes the
client only, so every session created before it is left as it was, field by
field, and a session created after it holds the new values (the new predicate
when one is passed, the client's previous one otherwise). -/
theorem Request_copies_policy {F σ : Type} (C : SuperAgentOps σ) (h : Store F σ) (m : Int)
    (b : F) (ps : List ShouldRetry) :
    ∃ s s2 : requestImpl F σ,
      (h.request C).sessions = h.sessions ++ [s] ∧
      (h.request C).client = h.client ∧
      s.maxRetries = h.client.maxRetries ∧
      s.backoff = h.client.backoff ∧
      s.minRetryPeriod = h.client.minRetryPeriod ∧
      s.retryPeriodRange = h.client.retryPeriodRange ∧
      s.shouldRetry = h.client.shouldRetry ∧
      ((h.request C).retry m b ps).sessions = h.sessions ++ [s] ∧
      (((h.request C).retry m b ps).request C).sessions = h.sessions ++ [s, s2] ∧
      s2.maxRetries = m ∧
      s2.backoff = b ∧
      s2.minRetryPeriod = h.client.minRetryPeriod ∧
      s2.retryPeriodRange = h.client.retryPeriodRange ∧
      s2.shouldRetry = (ps.head?).getD h.client.shouldRetry ∧
      (∀ (ops : Float64Ops F) (raw : Nat),
        (((h.request C).retry m b ps).sessions.getLast?).map (fun x => x.End ops raw C)
          = ((h.request C).sessions.getLast?).map (fun x => x.End ops raw C)) := by
  refine ⟨h.client.Request C, (h.client.Retry m b ps).Request C, rfl, rfl, rfl, rfl, rfl, rfl,
    rfl, rfl, ?_, ?_, ?_, ?_, ?_, ?_, fun _ _ => rfl⟩
  · simp [Store.request, Store.retry]
  all_goals cases ps <;> rfl

/-- C11. `Retry` stores a negative `maxRetries` as it is given, and so does the
session made from the client afterwards.  In every session with
`maxRetries < 0` the body of the retry loop never runs: the attempt function,
and with it the collaborator's execute step and the retry predicate, is invoked
zero times (the collaborator is left in the state it was in, and the outcome
is the same whatever the collaborator and the predicate are), nothing is slept
and nothing panics; `End` returns a nil response, an empty body and an empty
error list, and `EndBytes` the same, the named results never having been
assigned. -/
theorem negative_maxRetries_no_exchange (m : Int) (hm : m < 0) :
    (∀ (F : Type) (c : clientImpl F) (backoff : F) (ps : List ShouldRetry),
        (c.Retry m backoff ps).maxRetries = m ∧
        ∀ (σ : Type) (C : SuperAgentOps σ), ((c.Retry m backoff ps).Request C).maxRetries = m) ∧
    (∀ (F τ : Type) (ops : Float64Ops F) (raw : Nat) (r : retryActor F τ) (w : τ),
        r.maxRetries = m →
        ∃ res, r.act ops raw w = some res ∧ res.calls = 0 ∧ res.world = w ∧ res.slept = [] ∧
          res.panicked = false) ∧
    (∀ (F σ : Type) (ops : Float64Ops F) (raw : Nat) (C : SuperAgentOps σ) (r : requestImpl F σ),
        r.maxRetries = m →
        r.End ops raw C
          = some { resp := none, body := [], errors := [], superAgent := r.superAgent,
                   calls := 0, slept := [], panicked := false } ∧
        r.EndBytes ops raw C
          = some { resp := none, body := [], errors := [], superAgent := r.superAgent,
                   calls := 0, slept := [], panicked := false } ∧
        ∀ (C2 : SuperAgentOps σ) (p : ShouldRetry),
          ({ r with shouldRetry := p } : requestImpl F σ).End ops raw C2 = r.End ops raw C ∧
          ({ r with shouldRetry := p } : requestImpl F σ).EndBytes ops raw C2
            = r.EndBytes ops raw C) := by
  have run : ∀ (F σ : Type) (ops : Float64Ops F) (raw : Nat)
      (exec : σ → (GoResponse × Bytes × List Err) × σ) (r : requestImpl F σ),
      r.maxRetries = m →
      (r.retryEnd ops raw (r.attempt exec) r.start).map EndResult.ofRun
        = some { resp := none, body := [], errors := [], superAgent := r.superAgent,
                 calls := 0, slept := [], panicked := false } := by
    intro F σ ops raw exec r hr
    unfold requestImpl.retryEnd
    rw [act_negative ops raw _ _ (by simp only [requestImpl.newRetryActor, hr]; exact hm)]
    rfl
  refine ⟨?_, ?_, ?_⟩
  · intro F c backoff ps
    cases ps <;> exact ⟨rfl, fun _ _ => rfl⟩
  · intro F τ ops raw r w hr
    exact ⟨_, act_negative ops raw r w (by rw [hr]; exact hm), rfl, rfl, rfl, rfl⟩
  · intro F σ ops raw C r hr
    have h1 : r.End ops raw C = _ := run F σ ops raw C.End r hr
    have h2 : r.EndBytes ops raw C = _ := run F σ ops raw C.EndBytes r hr
    refine ⟨h1, h2, fun C2 p => ⟨?_, ?_⟩⟩
    · rw [h1]
      exact run F σ ops raw C2.End { r with shouldRetry := p } hr
    · rw [h2]
      exact run F σ ops raw C2.EndBytes { r with shouldRetry := p } hr

/-- C11 at `maxRetries = -1`: a session of `New().Retry(-1, 1)` against the
collaborator that always answers 500 makes no exchange and returns nothing. -/
theorem negative_maxRetries_no_exchange_witness :
    (-1 : Int) < 0 ∧
    (((New amd64 0 0).Retry (-1) F64.one []).Request always500).maxRetries = -1 ∧
    (((New amd64 0 0).Retry (-1) F64.one []).Request always500).End amd64 7 always500
      = some { resp := none, body := [], errors := [],
               superAgent := (((New amd64 0 0).Retry (-1) F64.one []).Request
                 always500).superAgent,
               calls := 0, slept := [], panicked := false } :=
  ⟨by decide, rfl,
    ((negative_maxRetries_no_exchange (-1) (by decide)).2.2 F64 Nat amd64 7 always500
      (((New amd64 0 0).Retry (-1) F64.one []).Request always500) rfl).1⟩

end GoRequest
